import Mathlib

/-!
Shallow embedding of the flight-analytics aggregation engine of
`src/aviation-backend/server.js` (functions `safeParseFloat`,
`processFlightAnalytics`, `generateMonthlyTrend`,
`generateEmptyMonthlyTrend`, lines 192-381).

Modelling choices: JS numbers are exact rationals; JS `Map` objects are
insertion-ordered association lists; the stable `Array.prototype.sort`
with comparator `(a, b) => b.k - a.k` is a stable insertion sort into
descending order; `Math.random()` is an explicit stream of draws indexed
by the order in which the source consumes them; the current date used by
`generateMonthlyTrend` is an explicit year / month-index parameter; a
`flight_date` value is abstracted to the (year, monthIndex) pair the
source extracts from it with `getFullYear` / `getMonth`, `none` standing
for a missing or unparseable date.
-/

namespace ELBS

/-- Half-up rounding to 2 decimal places, modelling
`parseFloat(x.toFixed(2))` on exact rationals. -/
def round2 (q : ℚ) : ℚ := (⌊q * 100 + 1/2⌋ : ℚ) / 100

/-- Half-up rounding to 1 decimal place, modelling both
`parseFloat(x.toFixed(1))` and `Math.round(x * 10) / 10`. -/
def round1 (q : ℚ) : ℚ := (⌊q * 10 + 1/2⌋ : ℚ) / 10

/-- JS `v || d` for an optional string: `null` / `undefined` and the
empty string are falsy and select the default. -/
def jsOrElse (v : Option String) (d : String) : String :=
  match v with
  | none => d
  | some s => if s = "" then d else s

/-! ### The `parseFloat` fragment used by `safeParseFloat` -/

/-- Numeric value of a decimal digit character. -/
def digitVal (c : Char) : Nat := c.toNat - 48

/-- Split a character list into its leading run of decimal digits
(already converted to values) and the rest. -/
def takeDigits : List Char → List Nat × List Char
  | [] => ([], [])
  | c :: cs =>
    if c.isDigit then
      let p := takeDigits cs
      (digitVal c :: p.1, p.2)
    else ([], c :: cs)

/-- Value of a digit run read in base 10. -/
def digitsToNat (ds : List Nat) : Nat := ds.foldl (fun a d => a * 10 + d) 0

/-- Parse an unsigned decimal significand (`digits`, `digits.digits`,
`digits.`, `.digits`); returns its value and the unconsumed rest, or
`none` when no digits are present at all. -/
def parseSignificand (cs : List Char) : Option (ℚ × List Char) :=
  let ip := takeDigits cs
  match ip.2 with
  | c :: rest2 =>
    if c = '.' then
      let fp := takeDigits rest2
      if ip.1.isEmpty && fp.1.isEmpty then none
      else some ((digitsToNat ip.1 : ℚ) + (digitsToNat fp.1 : ℚ) / (10 : ℚ) ^ fp.1.length, fp.2)
    else if ip.1.isEmpty then none else some ((digitsToNat ip.1 : ℚ), ip.2)
  | [] => if ip.1.isEmpty then none else some ((digitsToNat ip.1 : ℚ), ip.2)

/-- Parse an optional exponent part (`e`/`E`, optional sign, digits);
an exponent marker not followed by digits contributes nothing, exactly
as in the JS numeric-prefix grammar. -/
def parseExponent : List Char → Int
  | [] => 0
  | c :: rest =>
    if c = 'e' ∨ c = 'E' then
      match rest with
      | [] => 0
      | c2 :: r2 =>
        if c2 = '+' then
          let p := takeDigits r2
          if p.1.isEmpty then 0 else (digitsToNat p.1 : Int)
        else if c2 = '-' then
          let p := takeDigits r2
          if p.1.isEmpty then 0 else -(digitsToNat p.1 : Int)
        else
          let p := takeDigits (c2 :: r2)
          if p.1.isEmpty then 0 else (digitsToNat p.1 : Int)
    else 0

/-- Integer power of ten as a rational. -/
def pow10 (e : Int) : ℚ :=
  if 0 ≤ e then (10 : ℚ) ^ e.toNat else ((10 : ℚ) ^ (-e).toNat)⁻¹

/-- JS `parseFloat` on exact rationals: the longest numeric prefix after
leading whitespace, `none` modelling a `NaN` result.  The special
values `Infinity` / `-Infinity` lie outside the rational embedding and
also map to `none`. -/
def parseFloatQ (s : String) : Option ℚ :=
  match s.data.dropWhile (fun c => c.isWhitespace) with
  | [] => none
  | c :: rest =>
    if c = '-' then (parseSignificand rest).map (fun p => -(p.1 * pow10 (parseExponent p.2)))
    else if c = '+' then (parseSignificand rest).map (fun p => p.1 * pow10 (parseExponent p.2))
    else (parseSignificand (c :: rest)).map (fun p => p.1 * pow10 (parseExponent p.2))

/-- JS values that can occupy the `duration_hours` field of a record. -/
inductive JSVal where
  | num (q : ℚ)
  | str (s : String)
  | undef
  | nullv
deriving DecidableEq, Repr

/-- Embedding of `safeParseFloat` (server.js lines 192-196): a value of
number type passes through unchanged, anything else goes through
`parseFloat`, with a `NaN` result replaced by 0. -/
def safeParseFloat (v : JSVal) : ℚ :=
  match v with
  | .num q => q
  | .str s =>
    match parseFloatQ s with
    | some q => q
    | none => 0
  | .undef => 0
  | .nullv => 0

/-! ### Flight records and the grouping maps -/

/-- One row of `detailed_flights` as consumed by `processFlightAnalytics`. -/
structure FlightRecord where
  flight_date : Option (Int × Nat)
  flight_status : Option String
  departure_iata : Option String
  arrival_iata : Option String
  airline_iata : Option String
  duration_hours : JSVal
deriving DecidableEq, Repr

/-- Coerced duration of one record (`safeParseFloat(flight.duration_hours)`). -/
def coerceDur (f : FlightRecord) : ℚ := safeParseFloat f.duration_hours

/-- Route grouping key (server.js line 224). -/
def routeKey (f : FlightRecord) : String :=
  jsOrElse f.departure_iata "N/A" ++ "-" ++ jsOrElse f.arrival_iata "N/A"

/-- Carrier grouping key (server.js line 255). -/
def airlineKey (f : FlightRecord) : String := jsOrElse f.airline_iata "Unknown"

/-- `Map.set` on an insertion-ordered association list accumulating a
count and a duration sum per key: the shape shared by `routeMap`
(lines 222-239) and `aircraftMap` (lines 253-270). -/
def groupUpd (m : List (String × Nat × ℚ)) (k : String) (d : ℚ) : List (String × Nat × ℚ) :=
  match m with
  | [] => [(k, 1, d)]
  | e :: rest => if e.1 = k then (k, e.2.1 + 1, e.2.2 + d) :: rest else e :: groupUpd rest k d

/-- The per-key (count, duration-sum) map built by a `forEach` over the
records, in key insertion order. -/
def groupCountSum (key : FlightRecord → String) (fs : List FlightRecord) :
    List (String × Nat × ℚ) :=
  fs.foldl (fun m f => groupUpd m (key f) (coerceDur f)) []

/-- First occurrences of the elements of a list that are not already in
`seen`, kept in order: the key insertion order of a `Map` built by a
fold over the records. -/
def firstOccs (seen : List String) : List String → List String
  | [] => []
  | k :: r => if k ∈ seen then firstOccs seen r else k :: firstOccs (k :: seen) r

/-- Number of records carrying the given grouping key. -/
def cntKey (key : FlightRecord → String) (fs : List FlightRecord) (k : String) : Nat :=
  (fs.filter (fun f => decide (key f = k))).length

/-- Summed coerced duration of the records carrying the given grouping key. -/
def sumKey (key : FlightRecord → String) (fs : List FlightRecord) (k : String) : ℚ :=
  ((fs.filter (fun f => decide (key f = k))).map coerceDur).sum

/-! ### The stable descending sort -/

/-- Insert into a descending-sorted list after every element of greater
or equal key: folding this over a list from the left is the stable sort
performed by `Array.prototype.sort((a, b) => b.key - a.key)`. -/
def insertDesc {α : Type*} (key : α → Nat) (x : α) : List α → List α
  | [] => [x]
  | y :: ys => if key y < key x then x :: y :: ys else y :: insertDesc key x ys

/-- Stable sort into descending key order. -/
def stableSortDesc {α : Type*} (key : α → Nat) (l : List α) : List α :=
  l.foldl (fun acc x => insertDesc key x acc) []

/-! ### Output value types -/

structure RouteEntry where
  route : String
  frequency : Nat
  avgDuration : ℚ
deriving DecidableEq, Repr

structure AircraftEntry where
  type : String
  count : Nat
  hours : ℚ
  percentage : ℚ
deriving DecidableEq, Repr

structure AirlineEntry where
  airline : String
  flights : Nat
  reliability : ℚ
deriving DecidableEq, Repr

structure MonthEntry where
  month : String
  flights : Nat
  hours : ℚ
deriving DecidableEq, Repr

structure StatusDistribution where
  scheduled : Nat
  active : Nat
  completed : Nat
  cancelled : Nat
deriving DecidableEq, Repr

structure TimeDistribution where
  day : Int
  night : Int
  ifr : Int
  crossCountry : Int
deriving DecidableEq, Repr

structure AnalyticsSummary where
  totalFlights : Nat
  totalHours : ℚ
  averageFlightTime : ℚ
  mostFrequentRoute : String
  mostUsedAircraft : String
  onTimePercentage : ℚ
  monthlyTrend : List MonthEntry
  aircraftBreakdown : List AircraftEntry
  routeAnalysis : List RouteEntry
  statusDistribution : StatusDistribution
  timeDistribution : TimeDistribution
  airlineAnalysis : List AirlineEntry
deriving DecidableEq, Repr

/-! ### Pipeline stages, one per named local of `processFlightAnalytics` -/

/-- The raw (unrounded) duration sum computed by `reduce` on line 218. -/
def totalHoursOf (fs : List FlightRecord) : ℚ := fs.foldl (fun s f => s + coerceDur f) 0

/-- Route map entries turned into display entries (lines 241-246). -/
def routeEntriesOf (fs : List FlightRecord) : List RouteEntry :=
  (groupCountSum routeKey fs).map
    (fun e => ⟨e.1, e.2.1, if 0 < e.2.1 then e.2.2 / (e.2.1 : ℚ) else 0⟩)

def routeSortedOf (fs : List FlightRecord) : List RouteEntry :=
  stableSortDesc (fun e => e.frequency) (routeEntriesOf fs)

def routeAnalysisOf (fs : List FlightRecord) : List RouteEntry :=
  (routeSortedOf fs).take 5

/-- `routeAnalysis[0]?.route || 'N/A'` (line 250). -/
def mostFrequentRouteOf (fs : List FlightRecord) : String :=
  jsOrElse ((routeAnalysisOf fs).head?.map (fun e => e.route)) "N/A"

/-- Aircraft map entries turned into display entries (lines 272-278). -/
def aircraftEntriesOf (fs : List FlightRecord) : List AircraftEntry :=
  (groupCountSum airlineKey fs).map
    (fun e => ⟨e.1, e.2.1, e.2.2,
      if 0 < fs.length then ((e.2.1 : ℚ) / (fs.length : ℚ)) * 100 else 0⟩)

def aircraftSortedOf (fs : List FlightRecord) : List AircraftEntry :=
  stableSortDesc (fun e => e.count) (aircraftEntriesOf fs)

def aircraftBreakdownOf (fs : List FlightRecord) : List AircraftEntry :=
  (aircraftSortedOf fs).take 5

/-- `aircraftBreakdown[0]?.type || 'N/A'` (line 282). -/
def mostUsedAircraftOf (fs : List FlightRecord) : String :=
  jsOrElse ((aircraftBreakdownOf fs).head?.map (fun e => e.type)) "N/A"

/-- The `map` on lines 309-313: each entry consumes the next
`Math.random()` draw for its synthetic reliability score. -/
def withReliability (rand : Nat → ℚ) : Nat → List (String × Nat × ℚ) → List AirlineEntry
  | _, [] => []
  | i, e :: rest => ⟨e.1, e.2.1, 85 + rand i * 15⟩ :: withReliability rand (i + 1) rest

def airlineSortedOf (fs : List FlightRecord) (rand : Nat → ℚ) : List AirlineEntry :=
  stableSortDesc (fun e => e.flights) (withReliability rand 0 (groupCountSum airlineKey fs))

def airlineAnalysisOf (fs : List FlightRecord) (rand : Nat → ℚ) : List AirlineEntry :=
  (airlineSortedOf fs rand).take 5

/-- Exact-match status counter (lines 289-292). -/
def countStatus (s : String) (fs : List FlightRecord) : Nat :=
  (fs.filter (fun f => decide (f.flight_status = some s))).length

def statusDistributionOf (fs : List FlightRecord) : StatusDistribution :=
  ⟨countStatus "scheduled" fs, countStatus "active" fs,
   countStatus "completed" fs, countStatus "cancelled" fs⟩

/-- On-time percentage before the final 1-decimal rounding (lines 295-297). -/
def onTimePercentageOf (fs : List FlightRecord) : ℚ :=
  if 0 < fs.length then
    ((((statusDistributionOf fs).completed : ℚ) + ((statusDistributionOf fs).active : ℚ))
      / (fs.length : ℚ)) * 100
  else 0

/-- Fixed-ratio time distribution (lines 300-305); note that the source
feeds it the raw `totalHours`, before the 2-decimal rounding applied to
the returned `totalHours` field. -/
def timeDistributionOf (totalHours : ℚ) : TimeDistribution :=
  ⟨⌊totalHours * (3/4 : ℚ)⌋, ⌊totalHours * (1/4 : ℚ)⌋,
   ⌊totalHours * (2/5 : ℚ)⌋, ⌊totalHours * (3/5 : ℚ)⌋⟩

/-! ### Monthly trend -/

def monthNames : List String :=
  ["Jan", "Feb", "Mar", "Apr", "May", "Jun", "Jul", "Aug", "Sep", "Oct", "Nov", "Dec"]

/-- Normalized (year, monthIndex) of an absolute month count, as the
`Date` constructor produces for possibly negative month arguments. -/
def monthKeyOfIdx (idx : Int) : Int × Nat := (idx.fdiv 12, (idx.fmod 12).toNat)

/-- The 6 zero-initialized buckets, oldest first (lines 340-350), keyed
like the `YYYY-MM` strings of the source. -/
def initBuckets (nowIdx : Int) : List ((Int × Nat) × MonthEntry) :=
  (List.range 6).map (fun j : Nat =>
    (monthKeyOfIdx (nowIdx - 5 + (j : Int)),
     ⟨monthNames.getD (Int.fmod (nowIdx - 5 + (j : Int)) 12).toNat "", 0, 0⟩))

/-- `Map.get` / `Map.set` update of the bucket holding key `k`, a no-op
when no bucket has that key (lines 358-362). -/
def bumpBuckets (bs : List ((Int × Nat) × MonthEntry)) (k : Int × Nat) (d : ℚ) :
    List ((Int × Nat) × MonthEntry) :=
  match bs with
  | [] => []
  | b :: rest =>
    if b.1 = k then (b.1, ⟨b.2.month, b.2.flights + 1, b.2.hours + d⟩) :: rest
    else b :: bumpBuckets rest k d

/-- Processing of one record into the buckets (lines 353-364). -/
def addToTrend (bs : List ((Int × Nat) × MonthEntry)) (f : FlightRecord) :
    List ((Int × Nat) × MonthEntry) :=
  match f.flight_date with
  | none => bs
  | some k => bumpBuckets bs k (coerceDur f)

/-- Embedding of `generateMonthlyTrend` (server.js lines 334-371), the
current date passed as a year and a month index in `[0, 12)`. -/
def generateMonthlyTrend (fs : List FlightRecord) (nowYear : Int) (nowMonth : Nat) :
    List MonthEntry :=
  (fs.foldl addToTrend (initBuckets (nowYear * 12 + (nowMonth : Int)))).map
    (fun b => ⟨b.2.month, b.2.flights, round1 b.2.hours⟩)

/-- Embedding of `generateEmptyMonthlyTrend` (server.js lines 374-381):
a fixed six-entry list, independent of the current date. -/
def generateEmptyMonthlyTrend : List MonthEntry :=
  ["Jan", "Feb", "Mar", "Apr", "May", "Jun"].map (fun m => ⟨m, 0, 0⟩)

/-! ### The aggregator -/

/-- Embedding of `processFlightAnalytics` (server.js lines 199-331). -/
def processFlightAnalytics (flights : List FlightRecord) (nowYear : Int) (nowMonth : Nat)
    (rand : Nat → ℚ) : AnalyticsSummary :=
  if flights.isEmpty then
    { totalFlights := 0, totalHours := 0, averageFlightTime := 0,
      mostFrequentRoute := "N/A", mostUsedAircraft := "N/A", onTimePercentage := 0,
      monthlyTrend := generateEmptyMonthlyTrend,
      aircraftBreakdown := [], routeAnalysis := [],
      statusDistribution := ⟨0, 0, 0, 0⟩,
      timeDistribution := ⟨0, 0, 0, 0⟩,
      airlineAnalysis := [] }
  else
    { totalFlights := flights.length,
      totalHours := round2 (totalHoursOf flights),
      averageFlightTime :=
        round2 (if 0 < flights.length then totalHoursOf flights / (flights.length : ℚ) else 0),
      mostFrequentRoute := mostFrequentRouteOf flights,
      mostUsedAircraft := mostUsedAircraftOf flights,
      onTimePercentage := round1 (onTimePercentageOf flights),
      monthlyTrend := generateMonthlyTrend flights nowYear nowMonth,
      aircraftBreakdown := aircraftBreakdownOf flights,
      routeAnalysis := routeAnalysisOf flights,
      statusDistribution := statusDistributionOf flights,
      timeDistribution := timeDistributionOf (totalHoursOf flights),
      airlineAnalysis := airlineAnalysisOf flights rand }

/-- Modelled from the spec: the short names of the 6 most recent
calendar months ending at the current month, oldest first.  Used only to
compare the spec wording for the empty-input monthly trend against the
code output. -/
def specLastSixMonthNames (nowYear : Int) (nowMonth : Nat) : List String :=
  (List.range 6).map (fun j : Nat =>
    monthNames.getD (Int.fmod (nowYear * 12 + (nowMonth : Int) - 5 + (j : Int)) 12).toNat "")

/-! ## Lemmas about the stable descending sort -/

variable {α : Type*} {β : Type*}

theorem insertDesc_perm (key : α → Nat) (x : α) (l : List α) :
    List.Perm (insertDesc key x l) (x :: l) := by
  induction l with
  | nil => simp [insertDesc]
  | cons y ys ih =>
    simp only [insertDesc]
    split
    · exact List.Perm.refl _
    · exact (ih.cons y).trans (List.Perm.swap x y ys)

theorem mem_insertDesc (key : α → Nat) (x : α) (l : List α) (a : α) :
    a ∈ insertDesc key x l ↔ a = x ∨ a ∈ l := by
  rw [(insertDesc_perm key x l).mem_iff]
  simp

theorem insertDesc_sorted (key : α → Nat) (x : α) (l : List α)
    (h : l.Pairwise (fun a b => key b ≤ key a)) :
    (insertDesc key x l).Pairwise (fun a b => key b ≤ key a) := by
  induction l with
  | nil => simp [insertDesc]
  | cons y ys ih =>
    rw [List.pairwise_cons] at h
    obtain ⟨hy, hys⟩ := h
    simp only [insertDesc]
    split
    · rename_i hlt
      refine List.Pairwise.cons ?_ (List.Pairwise.cons hy hys)
      intro z hz
      rcases List.mem_cons.mp hz with rfl | hz
      · exact Nat.le_of_lt hlt
      · exact Nat.le_of_lt (Nat.lt_of_le_of_lt (hy z hz) hlt)
    · rename_i hnlt
      refine List.Pairwise.cons ?_ (ih hys)
      intro z hz
      rcases (mem_insertDesc key x ys z).mp hz with rfl | hz
      · exact Nat.le_of_not_lt hnlt
      · exact hy z hz

theorem insertDesc_filter (key : α → Nat) (x : α) (l : List α) (n : Nat)
    (h : l.Pairwise (fun a b => key b ≤ key a)) :
    (insertDesc key x l).filter (fun a => decide (key a = n))
      = l.filter (fun a => decide (key a = n)) ++ (if key x = n then [x] else []) := by
  induction l with
  | nil => by_cases hx : key x = n <;> simp [insertDesc, hx]
  | cons y ys ih =>
    rw [List.pairwise_cons] at h
    obtain ⟨hy, hys⟩ := h
    simp only [insertDesc]
    split
    · rename_i hlt
      by_cases hx : key x = n
      · have hnil : (y :: ys).filter (fun a => decide (key a = n)) = [] := by
          rw [List.filter_eq_nil_iff]
          intro z hz
          rcases List.mem_cons.mp hz with rfl | hz
          · simpa using Nat.ne_of_lt (hx ▸ hlt)
          · simpa using Nat.ne_of_lt (hx ▸ Nat.lt_of_le_of_lt (hy z hz) hlt)
        rw [List.filter_cons]
        simp [hx, hnil]
      · simp only [List.filter_cons]
        simp [hx]
    · rename_i hnlt
      rw [List.filter_cons, List.filter_cons, ih hys]
      by_cases hyn : key y = n <;> simp [hyn]

theorem foldl_insertDesc_sorted (key : α → Nat) (l : List α) (acc : List α)
    (h : acc.Pairwise (fun a b => key b ≤ key a)) :
    (l.foldl (fun acc x => insertDesc key x acc) acc).Pairwise (fun a b => key b ≤ key a) := by
  induction l generalizing acc with
  | nil => simpa using h
  | cons x xs ih => exact ih _ (insertDesc_sorted key x acc h)

theorem foldl_insertDesc_perm (key : α → Nat) (l : List α) (acc : List α) :
    List.Perm (l.foldl (fun acc x => insertDesc key x acc) acc) (l ++ acc) := by
  induction l generalizing acc with
  | nil => simp
  | cons x xs ih =>
    simp only [List.foldl_cons, List.cons_append]
    refine (ih _).trans ?_
    refine ((List.Perm.append_left xs (insertDesc_perm key x acc)).trans ?_)
    exact List.perm_middle

theorem foldl_insertDesc_filter (key : α → Nat) (l : List α) (acc : List α) (n : Nat)
    (h : acc.Pairwise (fun a b => key b ≤ key a)) :
    (l.foldl (fun acc x => insertDesc key x acc) acc).filter (fun a => decide (key a = n))
      = acc.filter (fun a => decide (key a = n)) ++ l.filter (fun a => decide (key a = n)) := by
  induction l generalizing acc with
  | nil => simp
  | cons x xs ih =>
    rw [List.foldl_cons, ih _ (insertDesc_sorted key x acc h),
      insertDesc_filter key x acc n h, List.filter_cons]
    by_cases hx : key x = n <;> simp [hx]

theorem stableSortDesc_sorted (key : α → Nat) (l : List α) :
    (stableSortDesc key l).Pairwise (fun a b => key b ≤ key a) :=
  foldl_insertDesc_sorted key l [] (by simp)

theorem stableSortDesc_perm (key : α → Nat) (l : List α) :
    List.Perm (stableSortDesc key l) l := by
  simpa [stableSortDesc] using foldl_insertDesc_perm key l []

theorem mem_stableSortDesc (key : α → Nat) (l : List α) (a : α) :
    a ∈ stableSortDesc key l ↔ a ∈ l :=
  (stableSortDesc_perm key l).mem_iff

theorem stableSortDesc_length (key : α → Nat) (l : List α) :
    (stableSortDesc key l).length = l.length :=
  (stableSortDesc_perm key l).length_eq

theorem stableSortDesc_filter (key : α → Nat) (l : List α) (n : Nat) :
    (stableSortDesc key l).filter (fun a => decide (key a = n))
      = l.filter (fun a => decide (key a = n)) := by
  simpa [stableSortDesc] using foldl_insertDesc_filter key l [] n (by simp)

theorem insertDesc_map (key : α → Nat) (key2 : β → Nat) (f : α → β)
    (hk : ∀ a, key2 (f a) = key a) (x : α) (l : List α) :
    (insertDesc key x l).map f = insertDesc key2 (f x) (l.map f) := by
  induction l with
  | nil => simp [insertDesc]
  | cons y ys ih =>
    by_cases hlt : key y < key x
    · simp [insertDesc, hk, hlt]
    · simp [insertDesc, hk, hlt, ih]

theorem stableSortDesc_map (key : α → Nat) (key2 : β → Nat) (f : α → β)
    (hk : ∀ a, key2 (f a) = key a) (l : List α) :
    (stableSortDesc key l).map f = stableSortDesc key2 (l.map f) := by
  suffices h : ∀ acc : List α,
      (l.foldl (fun acc x => insertDesc key x acc) acc).map f
        = (l.map f).foldl (fun acc x => insertDesc key2 x acc) (acc.map f) by
    simpa [stableSortDesc] using h []
  induction l with
  | nil => intro acc; simp
  | cons x xs ih =>
    intro acc
    simp only [List.foldl_cons, List.map_cons]
    rw [ih, insertDesc_map key key2 f hk]

/-! ## Lemmas about the duration sum -/

theorem totalHoursOf_eq (fs : List FlightRecord) :
    totalHoursOf fs = (fs.map coerceDur).sum := by
  suffices h : ∀ (a : ℚ) (l : List FlightRecord),
      l.foldl (fun s f => s + coerceDur f) a = a + (l.map coerceDur).sum by
    simpa [totalHoursOf] using h 0 fs
  intro a l
  induction l generalizing a with
  | nil => simp
  | cons f r ih => simp [ih, add_assoc]

/-! ## Lemmas about first occurrences of keys -/

theorem mem_firstOccs (l : List String) (seen : List String) (x : String) :
    x ∈ firstOccs seen l ↔ x ∈ l ∧ x ∉ seen := by
  induction l generalizing seen with
  | nil => simp [firstOccs]
  | cons k r ih =>
    by_cases hk : k ∈ seen
    · by_cases hx : x = k
      · subst hx
        simp [firstOccs, hk, ih]
      · simp [firstOccs, hk, ih, hx]
    · by_cases hx : x = k
      · subst hx
        simp [firstOccs, hk]
      · simp only [firstOccs, if_neg hk, List.mem_cons, ih, List.mem_cons]
        constructor
        · rintro (rfl | ⟨h1, h2⟩)
          · exact absurd rfl hx
          · exact ⟨Or.inr h1, fun hs => h2 (Or.inr hs)⟩
        · rintro ⟨rfl | h1, h2⟩
          · exact absurd rfl hx
          · exact Or.inr ⟨h1, fun hs => h2 (by rcases hs with rfl | hs; exact absurd rfl hx; exact hs)⟩

theorem firstOccs_nodup (l : List String) (seen : List String) :
    (firstOccs seen l).Nodup := by
  induction l generalizing seen with
  | nil => simp [firstOccs]
  | cons k r ih =>
    by_cases hk : k ∈ seen
    · simpa [firstOccs, hk] using ih seen
    · rw [firstOccs, if_neg hk]
      refine List.Nodup.cons ?_ (ih (k :: seen))
      intro hmem
      exact ((mem_firstOccs r (k :: seen) k).mp hmem).2 (List.mem_cons_self k seen)

theorem firstOccs_congr (l : List String) (s1 s2 : List String)
    (h : ∀ x, x ∈ s1 ↔ x ∈ s2) : firstOccs s1 l = firstOccs s2 l := by
  induction l generalizing s1 s2 with
  | nil => simp [firstOccs]
  | cons k r ih =>
    by_cases hk : k ∈ s1
    · rw [firstOccs, if_pos hk, firstOccs, if_pos ((h k).mp hk)]
      exact ih s1 s2 h
    · rw [firstOccs, if_neg hk, firstOccs, if_neg (fun hm => hk ((h k).mpr hm))]
      refine congrArg _ (ih (k :: s1) (k :: s2) ?_)
      intro x
      simp [h x]

theorem firstOccs_length (l : List String) :
    (firstOccs [] l).length = l.dedup.length := by
  have hnd := firstOccs_nodup l []
  have hset : (firstOccs [] l).toFinset = l.toFinset := by
    ext x
    simp [List.mem_toFinset, mem_firstOccs]
  calc (firstOccs [] l).length = (firstOccs [] l).toFinset.card :=
        (List.toFinset_card_of_nodup hnd).symm
    _ = l.toFinset.card := by rw [hset]
    _ = l.dedup.length := List.card_toFinset l

/-! ## Lemmas about the grouping maps -/

theorem groupUpd_not_mem (m : List (String × Nat × ℚ)) (k : String) (d : ℚ)
    (h : k ∉ m.map Prod.fst) : groupUpd m k d = m ++ [(k, 1, d)] := by
  induction m with
  | nil => rfl
  | cons e rest ih =>
    simp only [List.map_cons, List.mem_cons, not_or] at h
    rw [groupUpd, if_neg (fun he => h.1 he.symm), ih h.2]
    simp

theorem groupUpd_mem (m : List (String × Nat × ℚ)) (k : String) (d : ℚ)
    (hnd : (m.map Prod.fst).Nodup) (h : k ∈ m.map Prod.fst) :
    groupUpd m k d = m.map (fun e => if e.1 = k then (e.1, e.2.1 + 1, e.2.2 + d) else e) := by
  induction m with
  | nil => simp at h
  | cons e rest ih =>
    rw [List.map_cons, List.nodup_cons] at hnd
    by_cases he : e.1 = k
    · rw [groupUpd, if_pos he, List.map_cons, if_pos he]
      have hrest : rest.map (fun e1 => if e1.1 = k then (e1.1, e1.2.1 + 1, e1.2.2 + d) else e1)
          = rest := by
        have hcong : ∀ x ∈ rest,
            (if x.1 = k then (x.1, x.2.1 + 1, x.2.2 + d) else x) = id x := by
          intro x hx
          have : x.1 ≠ k := fun hxk => hnd.1 (he ▸ hxk ▸ List.mem_map_of_mem Prod.fst hx)
          simp [this]
        rw [List.map_congr_left hcong, List.map_id]
      rw [hrest, he]
    · have hk : k ∈ rest.map Prod.fst := by
        rw [List.map_cons] at h
        rcases List.mem_cons.mp h with hke | hm
        · exact absurd hke.symm he
        · exact hm
      rw [groupUpd, if_neg he, List.map_cons, if_neg he, ih hnd.2 hk]

theorem groupUpd_keys_mem (m : List (String × Nat × ℚ)) (k : String) (d : ℚ)
    (hnd : (m.map Prod.fst).Nodup) (h : k ∈ m.map Prod.fst) :
    (groupUpd m k d).map Prod.fst = m.map Prod.fst := by
  rw [groupUpd_mem m k d hnd h, List.map_map]
  refine List.map_congr_left ?_
  intro e _
  by_cases he : e.1 = k <;> simp [he]

theorem cntKey_cons (key : FlightRecord → String) (f : FlightRecord) (r : List FlightRecord)
    (k : String) :
    cntKey key (f :: r) k = if key f = k then cntKey key r k + 1 else cntKey key r k := by
  by_cases h : key f = k <;> simp [cntKey, List.filter_cons, h]

theorem sumKey_cons (key : FlightRecord → String) (f : FlightRecord) (r : List FlightRecord)
    (k : String) :
    sumKey key (f :: r) k
      = if key f = k then coerceDur f + sumKey key r k else sumKey key r k := by
  by_cases h : key f = k <;> simp [sumKey, List.filter_cons, h]

theorem groupFold_eq (key : FlightRecord → String) (fs : List FlightRecord)
    (acc : List (String × Nat × ℚ)) (hnd : (acc.map Prod.fst).Nodup) :
    fs.foldl (fun m f => groupUpd m (key f) (coerceDur f)) acc
      = acc.map (fun e => (e.1, e.2.1 + cntKey key fs e.1, e.2.2 + sumKey key fs e.1))
        ++ (firstOccs (acc.map Prod.fst) (fs.map key)).map
             (fun k => (k, cntKey key fs k, sumKey key fs k)) := by
  induction fs generalizing acc with
  | nil =>
    simp [cntKey, sumKey, firstOccs]
  | cons f r ih =>
    simp only [List.foldl_cons, List.map_cons]
    by_cases hmem : key f ∈ acc.map Prod.fst
    · have hkeys := groupUpd_keys_mem acc (key f) (coerceDur f) hnd hmem
      rw [ih (groupUpd acc (key f) (coerceDur f)) (by rw [hkeys]; exact hnd), hkeys]
      have hleft :
          (groupUpd acc (key f) (coerceDur f)).map
              (fun e => (e.1, e.2.1 + cntKey key r e.1, e.2.2 + sumKey key r e.1))
            = acc.map (fun e =>
                (e.1, e.2.1 + cntKey key (f :: r) e.1, e.2.2 + sumKey key (f :: r) e.1)) := by
        rw [groupUpd_mem acc (key f) (coerceDur f) hnd hmem, List.map_map]
        refine List.map_congr_left ?_
        intro e _
        simp only [Function.comp_apply]
        by_cases he : e.1 = key f
        · rw [if_pos he]
          show (e.1, e.2.1 + 1 + cntKey key r e.1, e.2.2 + coerceDur f + sumKey key r e.1)
              = (e.1, e.2.1 + cntKey key (f :: r) e.1, e.2.2 + sumKey key (f :: r) e.1)
          rw [cntKey_cons, if_pos he.symm, sumKey_cons, if_pos he.symm]
          simp only [Prod.mk.injEq]
          exact ⟨trivial, by omega, (add_assoc _ _ _)⟩
        · rw [if_neg he]
          show (e.1, e.2.1 + cntKey key r e.1, e.2.2 + sumKey key r e.1)
              = (e.1, e.2.1 + cntKey key (f :: r) e.1, e.2.2 + sumKey key (f :: r) e.1)
          rw [cntKey_cons, if_neg (fun hkf => he hkf.symm),
            sumKey_cons, if_neg (fun hkf => he hkf.symm)]
      have hright :
          (firstOccs (acc.map Prod.fst) (r.map key)).map
              (fun k => (k, cntKey key r k, sumKey key r k))
            = (firstOccs (acc.map Prod.fst) (key f :: r.map key)).map
                (fun k => (k, cntKey key (f :: r) k, sumKey key (f :: r) k)) := by
        have hr0 : firstOccs (acc.map Prod.fst) (key f :: r.map key)
            = firstOccs (acc.map Prod.fst) (r.map key) := by
          rw [firstOccs, if_pos hmem]
        rw [hr0]
        refine List.map_congr_left ?_
        intro k hk
        have hne : k ≠ key f := by
          intro hkf
          exact ((mem_firstOccs (r.map key) (acc.map Prod.fst) k).mp hk).2 (hkf ▸ hmem)
        rw [cntKey_cons, if_neg (fun hkf => hne hkf.symm),
          sumKey_cons, if_neg (fun hkf => hne hkf.symm)]
      rw [hleft, hright]
    · have hupd := groupUpd_not_mem acc (key f) (coerceDur f) hmem
      have hkeys : (groupUpd acc (key f) (coerceDur f)).map Prod.fst
          = acc.map Prod.fst ++ [key f] := by
        rw [hupd, List.map_append]
        rfl
      have hnd2 : ((groupUpd acc (key f) (coerceDur f)).map Prod.fst).Nodup := by
        rw [hkeys, List.nodup_append]
        refine ⟨hnd, List.nodup_singleton _, ?_⟩
        intro x hx
        simp only [List.mem_singleton]
        intro hxk
        exact hmem (hxk ▸ hx)
      rw [ih (groupUpd acc (key f) (coerceDur f)) hnd2, hkeys, hupd]
      have hfo : firstOccs (acc.map Prod.fst ++ [key f]) (r.map key)
          = firstOccs (key f :: acc.map Prod.fst) (r.map key) := by
        refine firstOccs_congr _ _ _ ?_
        intro x
        simp only [List.mem_append, List.mem_singleton, List.mem_cons]
        tauto
      have hr1 : firstOccs (acc.map Prod.fst) (key f :: r.map key)
          = key f :: firstOccs (key f :: acc.map Prod.fst) (r.map key) := by
        rw [firstOccs, if_neg hmem]
      rw [hfo, hr1, List.map_append, List.map_cons]
      have hacc : acc.map (fun e => (e.1, e.2.1 + cntKey key r e.1, e.2.2 + sumKey key r e.1))
          = acc.map (fun e =>
              (e.1, e.2.1 + cntKey key (f :: r) e.1, e.2.2 + sumKey key (f :: r) e.1)) := by
        refine List.map_congr_left ?_
        intro e he
        have hne : e.1 ≠ key f := fun hkf =>
          hmem (hkf ▸ List.mem_map_of_mem Prod.fst he)
        rw [cntKey_cons, if_neg (fun hkf => hne hkf.symm),
          sumKey_cons, if_neg (fun hkf => hne hkf.symm)]
      have htail : (firstOccs (key f :: acc.map Prod.fst) (r.map key)).map
              (fun k => (k, cntKey key r k, sumKey key r k))
          = (firstOccs (key f :: acc.map Prod.fst) (r.map key)).map
              (fun k => (k, cntKey key (f :: r) k, sumKey key (f :: r) k)) := by
        refine List.map_congr_left ?_
        intro k hk
        have hne : k ≠ key f := by
          intro hkf
          exact ((mem_firstOccs (r.map key) _ k).mp hk).2 (hkf ▸ List.mem_cons_self _ _)
        rw [cntKey_cons, if_neg (fun hkf => hne hkf.symm),
          sumKey_cons, if_neg (fun hkf => hne hkf.symm)]
      rw [hacc, htail, List.map_cons, List.map_nil, List.append_assoc, List.singleton_append]
      refine congrArg (fun z => List.map (fun e =>
        (e.1, e.2.1 + cntKey key (f :: r) e.1, e.2.2 + sumKey key (f :: r) e.1)) acc ++ z) ?_
      refine congrArg₂ List.cons ?_ rfl
      show (key f, 1 + cntKey key r (key f), coerceDur f + sumKey key r (key f))
          = (key f, cntKey key (f :: r) (key f), sumKey key (f :: r) (key f))
      rw [cntKey_cons, if_pos rfl, sumKey_cons, if_pos rfl, Nat.add_comm 1]

theorem groupCountSum_eq (key : FlightRecord → String) (fs : List FlightRecord) :
    groupCountSum key fs
      = (firstOccs [] (fs.map key)).map (fun k => (k, cntKey key fs k, sumKey key fs k)) := by
  simpa [groupCountSum] using groupFold_eq key fs [] (by simp)

theorem mem_groupCountSum (key : FlightRecord → String) (fs : List FlightRecord)
    (e : String × Nat × ℚ) (he : e ∈ groupCountSum key fs) :
    e.2.1 = cntKey key fs e.1 ∧ e.2.2 = sumKey key fs e.1 ∧ e.1 ∈ fs.map key := by
  rw [groupCountSum_eq] at he
  obtain ⟨k, hk, rfl⟩ := List.mem_map.mp he
  exact ⟨rfl, rfl, ((mem_firstOccs (fs.map key) [] k).mp hk).1⟩

theorem groupCountSum_length (key : FlightRecord → String) (fs : List FlightRecord) :
    (groupCountSum key fs).length = (fs.map key).dedup.length := by
  rw [groupCountSum_eq, List.length_map, firstOccs_length]

theorem cntKey_pos (key : FlightRecord → String) (fs : List FlightRecord) (k : String)
    (h : k ∈ fs.map key) : 0 < cntKey key fs k := by
  obtain ⟨f, hf, rfl⟩ := List.mem_map.mp h
  exact List.length_pos_of_mem (List.mem_filter.mpr ⟨hf, by simp⟩)

/-! ## Lemmas about the per-key display entries -/

theorem mem_routeEntriesOf (fs : List FlightRecord) (e : RouteEntry)
    (he : e ∈ routeEntriesOf fs) :
    e.frequency = cntKey routeKey fs e.route
    ∧ 0 < e.frequency
    ∧ e.avgDuration = sumKey routeKey fs e.route / (e.frequency : ℚ)
    ∧ e.route ∈ fs.map routeKey := by
  obtain ⟨p, hp, rfl⟩ := List.mem_map.mp he
  obtain ⟨h1, h2, h3⟩ := mem_groupCountSum routeKey fs p hp
  have hpos : 0 < p.2.1 := by rw [h1]; exact cntKey_pos routeKey fs p.1 h3
  refine ⟨h1, hpos, ?_, h3⟩
  show (if 0 < p.2.1 then p.2.2 / (p.2.1 : ℚ) else 0) = sumKey routeKey fs p.1 / ((p.2.1 : Nat) : ℚ)
  rw [if_pos hpos, h2]

theorem mem_aircraftEntriesOf (fs : List FlightRecord) (e : AircraftEntry)
    (he : e ∈ aircraftEntriesOf fs) :
    e.count = cntKey airlineKey fs e.type
    ∧ 0 < e.count
    ∧ e.percentage = (if 0 < fs.length then ((e.count : ℚ) / (fs.length : ℚ)) * 100 else 0)
    ∧ e.type ∈ fs.map airlineKey := by
  obtain ⟨p, hp, rfl⟩ := List.mem_map.mp he
  obtain ⟨h1, h2, h3⟩ := mem_groupCountSum airlineKey fs p hp
  have hpos : 0 < p.2.1 := by rw [h1]; exact cntKey_pos airlineKey fs p.1 h3
  exact ⟨h1, hpos, rfl, h3⟩

theorem jsOrElse_ne_empty (v : Option String) (d : String) (hd : d ≠ "") :
    jsOrElse v d ≠ "" := by
  cases v with
  | none => exact hd
  | some s => by_cases hs : s = "" <;> simp [jsOrElse, hs, hd]

theorem routeKey_ne_empty (f : FlightRecord) : routeKey f ≠ "" := by
  intro h
  have hlen := congrArg String.length h
  rw [routeKey, String.length_append, String.length_append] at hlen
  have hm : ("-" : String).length = 1 := rfl
  have h0 : ("" : String).length = 0 := rfl
  rw [hm, h0] at hlen
  omega

theorem airlineKey_ne_empty (f : FlightRecord) : airlineKey f ≠ "" :=
  jsOrElse_ne_empty f.airline_iata "Unknown" (by decide)

/-! ## Unfolding the aggregator on a non-empty input -/

theorem processFlightAnalytics_ne_nil (fs : List FlightRecord) (y : Int) (mo : Nat)
    (r : Nat → ℚ) (hne : fs ≠ []) :
    processFlightAnalytics fs y mo r =
      { totalFlights := fs.length,
        totalHours := round2 (totalHoursOf fs),
        averageFlightTime := round2 (totalHoursOf fs / (fs.length : ℚ)),
        mostFrequentRoute := mostFrequentRouteOf fs,
        mostUsedAircraft := mostUsedAircraftOf fs,
        onTimePercentage := round1 (onTimePercentageOf fs),
        monthlyTrend := generateMonthlyTrend fs y mo,
        aircraftBreakdown := aircraftBreakdownOf fs,
        routeAnalysis := routeAnalysisOf fs,
        statusDistribution := statusDistributionOf fs,
        timeDistribution := timeDistributionOf (totalHoursOf fs),
        airlineAnalysis := airlineAnalysisOf fs r } := by
  unfold processFlightAnalytics
  rw [if_neg (by simpa using hne), if_pos (List.length_pos.mpr hne)]

theorem head?_take_five {γ : Type*} (l : List γ) (hl : l ≠ []) :
    (l.take 5).head? = l.head? := by
  cases l with
  | nil => exact absurd rfl hl
  | cons a t => simp

theorem routeEntriesOf_length (fs : List FlightRecord) :
    (routeEntriesOf fs).length = (fs.map routeKey).dedup.length := by
  rw [routeEntriesOf, List.length_map, groupCountSum_length]

theorem routeSortedOf_ne_nil (fs : List FlightRecord) (hne : fs ≠ []) :
    routeSortedOf fs ≠ [] := by
  have hlen : (routeSortedOf fs).length = (fs.map routeKey).dedup.length := by
    rw [routeSortedOf, stableSortDesc_length, routeEntriesOf_length]
  intro h
  rw [h] at hlen
  have : fs.map routeKey ≠ [] := by
    intro hmap
    exact hne (List.map_eq_nil_iff.mp hmap)
  have hd : (fs.map routeKey).dedup ≠ [] := by
    intro hdd
    exact this ((List.dedup_eq_nil _).mp hdd)
  exact hd (List.eq_nil_of_length_eq_zero hlen.symm)

theorem mostFrequentRouteOf_head (fs : List FlightRecord) (hne : fs ≠ []) :
    (routeAnalysisOf fs).head?.map (fun e => e.route) = some (mostFrequentRouteOf fs) := by
  obtain ⟨e, t, het⟩ := List.exists_cons_of_ne_nil (routeSortedOf_ne_nil fs hne)
  have hhead : (routeAnalysisOf fs).head? = some e := by
    rw [routeAnalysisOf, head?_take_five _ (routeSortedOf_ne_nil fs hne), het]
    rfl
  have hmem : e ∈ routeEntriesOf fs := by
    rw [← (stableSortDesc_perm (fun e => e.frequency) (routeEntriesOf fs)).mem_iff]
    rw [routeSortedOf] at het
    rw [het]
    exact List.mem_cons_self e t
  obtain ⟨f0, hf0, hkey⟩ := List.mem_map.mp (mem_routeEntriesOf fs e hmem).2.2.2
  have hroute : e.route ≠ "" := by
    rw [← hkey]
    exact routeKey_ne_empty f0
  rw [hhead, mostFrequentRouteOf, hhead]
  simp [jsOrElse, hroute]

/-! ## Lemmas about the monthly trend buckets -/

theorem bumpBuckets_keys (bs : List ((Int × Nat) × MonthEntry)) (k : Int × Nat) (d : ℚ) :
    (bumpBuckets bs k d).map Prod.fst = bs.map Prod.fst := by
  induction bs with
  | nil => rfl
  | cons b rest ih =>
    by_cases hb : b.1 = k
    · rw [bumpBuckets, if_pos hb, List.map_cons, List.map_cons]
    · rw [bumpBuckets, if_neg hb, List.map_cons, List.map_cons, ih]

theorem bumpBuckets_eq (bs : List ((Int × Nat) × MonthEntry)) (k : Int × Nat) (d : ℚ)
    (hnd : (bs.map Prod.fst).Nodup) :
    bumpBuckets bs k d
      = bs.map (fun b => if b.1 = k
          then (b.1, ⟨b.2.month, b.2.flights + 1, b.2.hours + d⟩) else b) := by
  induction bs with
  | nil => rfl
  | cons b rest ih =>
    rw [List.map_cons, List.nodup_cons] at hnd
    by_cases hb : b.1 = k
    · rw [bumpBuckets, if_pos hb, List.map_cons, if_pos hb]
      have hrest : rest.map (fun b1 => if b1.1 = k
          then (b1.1, ⟨b1.2.month, b1.2.flights + 1, b1.2.hours + d⟩) else b1) = rest := by
        have hcong : ∀ x ∈ rest,
            (if x.1 = k then (x.1, ⟨x.2.month, x.2.flights + 1, x.2.hours + d⟩) else x)
              = id x := by
          intro x hx
          have : x.1 ≠ k := fun hxk => hnd.1 (hb ▸ hxk ▸ List.mem_map_of_mem Prod.fst hx)
          simp [this]
        rw [List.map_congr_left hcong, List.map_id]
      rw [hrest]
    · rw [bumpBuckets, if_neg hb, List.map_cons, if_neg hb, ih hnd.2]

theorem trendFold_eq (fs : List FlightRecord) (bs : List ((Int × Nat) × MonthEntry))
    (hnd : (bs.map Prod.fst).Nodup) :
    fs.foldl addToTrend bs
      = bs.map (fun b => (b.1,
          (⟨b.2.month,
            b.2.flights + (fs.filter (fun f => decide (f.flight_date = some b.1))).length,
            b.2.hours + ((fs.filter (fun f =>
              decide (f.flight_date = some b.1))).map coerceDur).sum⟩ : MonthEntry))) := by
  induction fs generalizing bs with
  | nil =>
    simp only [List.foldl_nil, List.filter_nil, List.length_nil, List.map_nil, List.sum_nil,
      Nat.add_zero, add_zero]
    have hcong : ∀ b ∈ bs,
        ((b : (Int × Nat) × MonthEntry).1,
          (⟨b.2.month, b.2.flights, b.2.hours⟩ : MonthEntry)) = id b := by
      intro b _
      rfl
    rw [List.map_congr_left hcong, List.map_id]
  | cons f r ih =>
    rw [List.foldl_cons]
    cases hfd : f.flight_date with
    | none =>
      have hstep : addToTrend bs f = bs := by rw [addToTrend, hfd]
      rw [hstep, ih bs hnd]
      refine List.map_congr_left ?_
      intro b _
      have hfil : (f :: r).filter (fun f1 => decide (f1.flight_date = some b.1))
          = r.filter (fun f1 => decide (f1.flight_date = some b.1)) := by
        rw [List.filter_cons, hfd]
        simp
      rw [hfil]
    | some kf =>
      have hstep : addToTrend bs f = bumpBuckets bs kf (coerceDur f) := by
        rw [addToTrend, hfd]
      have hkeys : ((bumpBuckets bs kf (coerceDur f)).map Prod.fst).Nodup := by
        rw [bumpBuckets_keys]
        exact hnd
      rw [hstep, ih _ hkeys, bumpBuckets_eq bs kf (coerceDur f) hnd, List.map_map]
      refine List.map_congr_left ?_
      intro b _
      simp only [Function.comp_apply]
      by_cases hb : b.1 = kf
      · rw [if_pos hb]
        have hfil : (f :: r).filter (fun f1 => decide (f1.flight_date = some b.1))
            = f :: r.filter (fun f1 => decide (f1.flight_date = some b.1)) := by
          rw [List.filter_cons, hfd]
          have hkb : kf = b.1 := hb.symm
          simp [hkb]
        rw [hfil]
        dsimp only
        simp only [List.length_cons, List.map_cons, List.sum_cons, Prod.mk.injEq,
          MonthEntry.mk.injEq, eq_self_iff_true, true_and]
        exact ⟨by omega, by ring⟩
      · rw [if_neg hb]
        have hfil : (f :: r).filter (fun f1 => decide (f1.flight_date = some b.1))
            = r.filter (fun f1 => decide (f1.flight_date = some b.1)) := by
          rw [List.filter_cons, hfd]
          have hkb : ¬ kf = b.1 := fun hkb => hb hkb.symm
          simp [hkb]
        rw [hfil]

theorem monthKeyOfIdx_inj (a b : Int) (h : monthKeyOfIdx a = monthKeyOfIdx b) : a = b := by
  rw [monthKeyOfIdx, monthKeyOfIdx, Prod.mk.injEq] at h
  have ha := Int.fdiv_add_fmod a 12
  have hb := Int.fdiv_add_fmod b 12
  have hma : 0 ≤ a.fmod 12 := Int.fmod_nonneg' a (by norm_num)
  have hmb : 0 ≤ b.fmod 12 := Int.fmod_nonneg' b (by norm_num)
  have h1 := h.1
  have h2 := h.2
  omega

theorem initBuckets_keys_nodup (nowIdx : Int) : ((initBuckets nowIdx).map Prod.fst).Nodup := by
  rw [initBuckets, List.map_map]
  have hinj : Function.Injective (Prod.fst ∘ fun j : Nat =>
      (monthKeyOfIdx (nowIdx - 5 + (j : Int)),
       (⟨monthNames.getD (Int.fmod (nowIdx - 5 + (j : Int)) 12).toNat "", 0, 0⟩ : MonthEntry))) := by
    intro j1 j2 hj
    have hj2 : monthKeyOfIdx (nowIdx - 5 + (j1 : Int))
        = monthKeyOfIdx (nowIdx - 5 + (j2 : Int)) := hj
    have := monthKeyOfIdx_inj _ _ hj2
    omega
  exact List.Nodup.map hinj (List.nodup_range 6)

theorem generateMonthlyTrend_eq (fs : List FlightRecord) (yy : Int) (mo : Nat) :
    generateMonthlyTrend fs yy mo
      = (List.range 6).map (fun j : Nat =>
          (⟨monthNames.getD (Int.fmod (yy * 12 + (mo : Int) - 5 + (j : Int)) 12).toNat "",
            (fs.filter (fun f => decide (f.flight_date
               = some (monthKeyOfIdx (yy * 12 + (mo : Int) - 5 + (j : Int)))))).length,
            round1 (((fs.filter (fun f => decide (f.flight_date
               = some (monthKeyOfIdx (yy * 12 + (mo : Int) - 5 + (j : Int)))))).map
                 coerceDur).sum)⟩ : MonthEntry)) := by
  rw [generateMonthlyTrend, trendFold_eq fs _ (initBuckets_keys_nodup _), initBuckets,
    List.map_map, List.map_map]
  refine List.map_congr_left ?_
  intro j hj
  dsimp only [Function.comp_apply]
  rw [Nat.zero_add, zero_add]

theorem generateMonthlyTrend_length (fs : List FlightRecord) (yy : Int) (mo : Nat) :
    (generateMonthlyTrend fs yy mo).length = 6 := by
  rw [generateMonthlyTrend_eq, List.length_map, List.length_range]

/-! ## Small arithmetic helpers -/

theorem floorQ_eq (n : Int) (q : ℚ) (h1 : (n : ℚ) ≤ q) (h2 : q < n + 1) : ⌊q⌋ = n :=
  Int.floor_eq_iff.mpr ⟨h1, h2⟩

theorem round2_zero : round2 0 = 0 := by
  rw [round2, show (0 : ℚ) * 100 + 1/2 = 1/2 by norm_num,
    floorQ_eq 0 (1/2) (by norm_num) (by norm_num)]
  norm_num

theorem totalHours_spec (fs : List FlightRecord) (yy : Int) (mo : Nat) (r : Nat → ℚ) :
    (processFlightAnalytics fs yy mo r).totalHours
      = round2 ((fs.map (fun f => safeParseFloat f.duration_hours)).sum) := by
  rcases eq_or_ne fs [] with rfl | hne
  · simp [processFlightAnalytics, round2_zero]
  · rw [processFlightAnalytics_ne_nil fs yy mo r hne]
    show round2 (totalHoursOf fs) = _
    rw [totalHoursOf_eq]
    rfl

/-! ## Claim theorems -/

/-- C1: for every finite input sequence, `totalFlights` is the length of
the input, `totalHours` is the 2-decimal rounding of the sum of the
safely coerced durations, and `averageFlightTime` is the 2-decimal
rounding of that sum divided by the flight count (0 for an empty
input). -/
theorem claim1_scalarAggregates (fs : List FlightRecord) (yy : Int) (mo : Nat) (r : Nat → ℚ) :
    (processFlightAnalytics fs yy mo r).totalFlights = fs.length
    ∧ (processFlightAnalytics fs yy mo r).totalHours
        = round2 ((fs.map (fun f => safeParseFloat f.duration_hours)).sum)
    ∧ (processFlightAnalytics fs yy mo r).averageFlightTime
        = (if fs.length = 0 then 0
           else round2 ((fs.map (fun f => safeParseFloat f.duration_hours)).sum
             / (fs.length : ℚ))) := by
  refine ⟨?_, totalHours_spec fs yy mo r, ?_⟩
  all_goals rcases eq_or_ne fs [] with rfl | hne
  · rfl
  · rw [processFlightAnalytics_ne_nil fs yy mo r hne]
  · simp [processFlightAnalytics]
  · rw [processFlightAnalytics_ne_nil fs yy mo r hne]
    show round2 (totalHoursOf fs / (fs.length : ℚ)) = _
    rw [if_neg (by simpa using hne), totalHoursOf_eq]
    rfl

/-- C9 counterexample: with a single flight of duration 3.999, the
summary rounds `totalHours` up to 4, and `timeDistribution.day` is
`floor(3.999 * 0.75) = 2`, not `floor(4 * 0.75) = 3`: the fixed
fractions are applied to the raw duration sum, not to the summary's
rounded `totalHours` field. -/
theorem claim9_counterexample :
    (processFlightAnalytics
        [(⟨none, none, none, none, none, JSVal.num (3999/1000)⟩ : FlightRecord)]
        2026 9 (fun _ => 0)).timeDistribution.day
      ≠ ⌊(processFlightAnalytics
          [(⟨none, none, none, none, none, JSVal.num (3999/1000)⟩ : FlightRecord)]
          2026 9 (fun _ => 0)).totalHours * (3/4 : ℚ)⌋ := by
  have hne : [(⟨none, none, none, none, none, JSVal.num (3999/1000)⟩ : FlightRecord)] ≠ [] :=
    List.cons_ne_nil _ _
  rw [processFlightAnalytics_ne_nil _ _ _ _ hne]
  have hsum : totalHoursOf
      [(⟨none, none, none, none, none, JSVal.num (3999/1000)⟩ : FlightRecord)]
      = 3999/1000 := by
    simp [totalHoursOf, coerceDur, safeParseFloat]
  show (timeDistributionOf _).day ≠ ⌊round2 _ * (3/4 : ℚ)⌋
  rw [timeDistributionOf, hsum]
  have hday : (⌊(3999/1000 : ℚ) * (3/4 : ℚ)⌋ : Int) = 2 :=
    floorQ_eq 2 _ (by norm_num) (by norm_num)
  have hround : round2 (3999/1000 : ℚ) = 4 := by
    rw [round2, show (3999/1000 : ℚ) * 100 + 1/2 = 2002/5 by norm_num,
      floorQ_eq 400 (2002/5) (by norm_num) (by norm_num)]
    norm_num
  rw [hround, hday, show ((4 : ℚ) * (3/4 : ℚ)) = ((3 : Int) : ℚ) by norm_num,
    Int.floor_intCast]
  decide

/-- C9 (amended): `timeDistribution` is the four fixed fractions 0.75,
0.25, 0.40, 0.60 of the raw (unrounded) coerced duration sum, each
floored to a whole number; the source applies them to the sum before
the 2-decimal rounding that produces the summary's `totalHours`. -/
theorem claim9_timeDistribution (fs : List FlightRecord) (yy : Int) (mo : Nat) (r : Nat → ℚ) :
    (processFlightAnalytics fs yy mo r).timeDistribution
      = ⟨⌊(fs.map (fun f => safeParseFloat f.duration_hours)).sum * (3/4 : ℚ)⌋,
         ⌊(fs.map (fun f => safeParseFloat f.duration_hours)).sum * (1/4 : ℚ)⌋,
         ⌊(fs.map (fun f => safeParseFloat f.duration_hours)).sum * (2/5 : ℚ)⌋,
         ⌊(fs.map (fun f => safeParseFloat f.duration_hours)).sum * (3/5 : ℚ)⌋⟩ := by
  rcases eq_or_ne fs [] with rfl | hne
  · simp [processFlightAnalytics]
  · rw [processFlightAnalytics_ne_nil fs yy mo r hne]
    show timeDistributionOf (totalHoursOf fs) = _
    rw [timeDistributionOf, totalHoursOf_eq]
    rfl

/-- C7: the aggregator is a total function (it cannot raise) whose
output is structurally well-formed for every input: the monthly trend
always has 6 entries, the three top-k lists never exceed 5 entries, and
duration coercion sends numbers to themselves and strings through the
numeric-prefix parse with non-numeric values (including absent ones)
becoming 0, so the rational duration sum is always defined and no `NaN`
reaches `totalHours`. -/
theorem claim7_totalSafety (fs : List FlightRecord) (yy : Int) (mo : Nat) (r : Nat → ℚ) :
    (processFlightAnalytics fs yy mo r).monthlyTrend.length = 6
    ∧ (processFlightAnalytics fs yy mo r).routeAnalysis.length ≤ 5
    ∧ (processFlightAnalytics fs yy mo r).aircraftBreakdown.length ≤ 5
    ∧ (processFlightAnalytics fs yy mo r).airlineAnalysis.length ≤ 5
    ∧ (∀ q : ℚ, safeParseFloat (JSVal.num q) = q)
    ∧ (∀ s : String, safeParseFloat (JSVal.str s) = (parseFloatQ s).getD 0)
    ∧ safeParseFloat JSVal.undef = 0
    ∧ safeParseFloat JSVal.nullv = 0
    ∧ (processFlightAnalytics fs yy mo r).totalHours
        = round2 ((fs.map (fun f => safeParseFloat f.duration_hours)).sum) := by
  have hstr : ∀ s : String, safeParseFloat (JSVal.str s) = (parseFloatQ s).getD 0 := by
    intro s
    rw [safeParseFloat]
    cases parseFloatQ s <;> rfl
  have htot := totalHours_spec fs yy mo r
  rcases eq_or_ne fs [] with rfl | hne
  · exact ⟨rfl, by simp [processFlightAnalytics],
      by simp [processFlightAnalytics], by simp [processFlightAnalytics],
      fun q => rfl, hstr, rfl, rfl, htot⟩
  · rw [processFlightAnalytics_ne_nil fs yy mo r hne] at htot ⊢
    refine ⟨generateMonthlyTrend_length fs yy mo, ?_, ?_, ?_, fun q => rfl, hstr, rfl, rfl, htot⟩
    · exact List.length_take_le 5 _
    · exact List.length_take_le 5 _
    · exact List.length_take_le 5 _

/-- C2 counterexample: at a current date of September 2026 the
empty-input monthly trend is labelled with the fixed names Jan..Jun,
not with the 6 most recent month names Apr..Sep ending at the current
month as the claim states. -/
theorem claim2_counterexample :
    (processFlightAnalytics [] 2026 8 (fun _ => 0)).monthlyTrend.map (fun e => e.month)
      ≠ specLastSixMonthNames 2026 8 := by
  decide

/-- C2 (amended): on empty input the aggregator immediately returns the
fully zeroed summary: zero scalars, `"N/A"` placeholders, empty top-k
lists, all-zero status and time distributions, and a monthly trend of
exactly 6 zero-count entries whose month labels are the fixed constants
Jan, Feb, Mar, Apr, May, Jun, independent of the current month. -/
theorem claim2_emptySummary (yy : Int) (mo : Nat) (r : Nat → ℚ) :
    processFlightAnalytics [] yy mo r =
      { totalFlights := 0, totalHours := 0, averageFlightTime := 0,
        mostFrequentRoute := "N/A", mostUsedAircraft := "N/A", onTimePercentage := 0,
        monthlyTrend :=
          [⟨"Jan", 0, 0⟩, ⟨"Feb", 0, 0⟩, ⟨"Mar", 0, 0⟩,
           ⟨"Apr", 0, 0⟩, ⟨"May", 0, 0⟩, ⟨"Jun", 0, 0⟩],
        aircraftBreakdown := [], routeAnalysis := [],
        statusDistribution := ⟨0, 0, 0, 0⟩,
        timeDistribution := ⟨0, 0, 0, 0⟩,
        airlineAnalysis := [] } := rfl

/-- C4 counterexample: the claim quantifies over every input sequence,
but on the empty input the guard path returns the fixed labels Jan..Jun
rather than buckets covering the 6 months ending at the current month
(October 2026 here, whose window would be labelled May..Oct). -/
theorem claim4_counterexample :
    (processFlightAnalytics [] 2026 9 (fun _ => 0)).monthlyTrend.map (fun e => e.month)
      ≠ (List.range 6).map (fun j : Nat =>
          monthNames.getD
            (Int.fmod ((2026 : Int) * 12 + (9 : Int) - 5 + (j : Int)) 12).toNat "") := by
  decide

/-- C4 (amended): for every NON-EMPTY input sequence, `monthlyTrend`
has exactly 6 entries, oldest first, covering the 6 consecutive
calendar months ending at the current month: bucket `j` carries that
month's short name, the count of records whose parsed date equals that
exact (year, month), and their coerced duration sum rounded to 1
decimal; records dated outside the window are excluded from the trend
yet still counted in `totalFlights` and `totalHours` (on the empty
input the code takes the fixed-label guard path instead, see C2). -/
theorem claim4_monthlyTrend (fs : List FlightRecord) (yy : Int) (mo : Nat) (r : Nat → ℚ)
    (hne : fs ≠ []) :
    (processFlightAnalytics fs yy mo r).monthlyTrend
      = (List.range 6).map (fun j : Nat =>
          (⟨monthNames.getD (Int.fmod (yy * 12 + (mo : Int) - 5 + (j : Int)) 12).toNat "",
            (fs.filter (fun f => decide (f.flight_date
               = some (monthKeyOfIdx (yy * 12 + (mo : Int) - 5 + (j : Int)))))).length,
            round1 (((fs.filter (fun f => decide (f.flight_date
               = some (monthKeyOfIdx (yy * 12 + (mo : Int) - 5 + (j : Int)))))).map
                 coerceDur).sum)⟩ : MonthEntry))
    ∧ (processFlightAnalytics fs yy mo r).monthlyTrend.length = 6
    ∧ (processFlightAnalytics fs yy mo r).totalFlights = fs.length
    ∧ (processFlightAnalytics fs yy mo r).totalHours
        = round2 ((fs.map (fun f => safeParseFloat f.duration_hours)).sum) := by
  have htot := totalHours_spec fs yy mo r
  rw [processFlightAnalytics_ne_nil fs yy mo r hne] at htot ⊢
  exact ⟨generateMonthlyTrend_eq fs yy mo, generateMonthlyTrend_length fs yy mo, rfl, htot⟩

/-- C4 witness: the amended trend characterization instantiated at a
concrete single-flight input dated October 2026 with the current date
also in October 2026. -/
theorem claim4_witness :
    ([(⟨some (2026, 9), none, none, none, none, JSVal.num 2⟩ : FlightRecord)]
        : List FlightRecord) ≠ []
    ∧ ((processFlightAnalytics
          [(⟨some (2026, 9), none, none, none, none, JSVal.num 2⟩ : FlightRecord)]
          2026 9 (fun _ => 0)).monthlyTrend
        = (List.range 6).map (fun j : Nat =>
            (⟨monthNames.getD
                (Int.fmod ((2026 : Int) * 12 + ((9 : Nat) : Int) - 5 + (j : Int)) 12).toNat "",
              ([(⟨some (2026, 9), none, none, none, none, JSVal.num 2⟩ : FlightRecord)].filter
                 (fun f => decide (f.flight_date
                   = some (monthKeyOfIdx
                       ((2026 : Int) * 12 + ((9 : Nat) : Int) - 5 + (j : Int)))))).length,
              round1 ((([(⟨some (2026, 9), none, none, none, none,
                    JSVal.num 2⟩ : FlightRecord)].filter
                 (fun f => decide (f.flight_date
                   = some (monthKeyOfIdx
                       ((2026 : Int) * 12 + ((9 : Nat) : Int) - 5 + (j : Int)))))).map
                   coerceDur).sum)⟩ : MonthEntry))
      ∧ (processFlightAnalytics
          [(⟨some (2026, 9), none, none, none, none, JSVal.num 2⟩ : FlightRecord)]
          2026 9 (fun _ => 0)).monthlyTrend.length = 6
      ∧ (processFlightAnalytics
          [(⟨some (2026, 9), none, none, none, none, JSVal.num 2⟩ : FlightRecord)]
          2026 9 (fun _ => 0)).totalFlights
          = [(⟨some (2026, 9), none, none, none, none, JSVal.num 2⟩ : FlightRecord)].length
      ∧ (processFlightAnalytics
          [(⟨some (2026, 9), none, none, none, none, JSVal.num 2⟩ : FlightRecord)]
          2026 9 (fun _ => 0)).totalHours
          = round2 (([(⟨some (2026, 9), none, none, none, none,
              JSVal.num 2⟩ : FlightRecord)].map
                (fun f => safeParseFloat f.duration_hours)).sum)) :=
  ⟨List.cons_ne_nil _ _,
   claim4_monthlyTrend
     [(⟨some (2026, 9), none, none, none, none, JSVal.num 2⟩ : FlightRecord)]
     2026 9 (fun _ => 0) (List.cons_ne_nil _ _)⟩

/-! ## Status-distribution helpers -/

theorem countStatus_cons (s : String) (f : FlightRecord) (r : List FlightRecord) :
    countStatus s (f :: r)
      = countStatus s r + (if f.flight_status = some s then 1 else 0) := by
  by_cases h : f.flight_status = some s <;> simp [countStatus, List.filter_cons, h]

theorem statusIndicator_eq (f : FlightRecord) :
    (if f.flight_status = some "scheduled" then 1 else 0)
      + (if f.flight_status = some "active" then 1 else 0)
      + (if f.flight_status = some "completed" then 1 else 0)
      + (if f.flight_status = some "cancelled" then 1 else 0)
    = (if (f.flight_status = some "scheduled" ∨ f.flight_status = some "active"
        ∨ f.flight_status = some "completed" ∨ f.flight_status = some "cancelled")
       then 1 else 0) := by
  cases hfs : f.flight_status with
  | none => simp
  | some s =>
    simp only [Option.some.injEq]
    by_cases h1 : s = "scheduled"
    · subst h1; decide
    · by_cases h2 : s = "active"
      · subst h2; decide
      · by_cases h3 : s = "completed"
        · subst h3; decide
        · by_cases h4 : s = "cancelled"
          · subst h4; decide
          · simp [h1, h2, h3, h4]

theorem statusSum_eq_filter (fs : List FlightRecord) :
    countStatus "scheduled" fs + countStatus "active" fs + countStatus "completed" fs
        + countStatus "cancelled" fs
      = (fs.filter (fun f => decide (f.flight_status = some "scheduled"
          ∨ f.flight_status = some "active" ∨ f.flight_status = some "completed"
          ∨ f.flight_status = some "cancelled"))).length := by
  induction fs with
  | nil => simp [countStatus]
  | cons f r ih =>
    rw [countStatus_cons, countStatus_cons, countStatus_cons, countStatus_cons,
      List.filter_cons]
    by_cases h : f.flight_status = some "scheduled" ∨ f.flight_status = some "active"
        ∨ f.flight_status = some "completed" ∨ f.flight_status = some "cancelled"
    · have hp : decide (f.flight_status = some "scheduled" ∨ f.flight_status = some "active"
          ∨ f.flight_status = some "completed" ∨ f.flight_status = some "cancelled")
          = true := decide_eq_true h
      rw [hp, if_pos rfl, List.length_cons]
      have hind := statusIndicator_eq f
      rw [if_pos h] at hind
      omega
    · have hp : decide (f.flight_status = some "scheduled" ∨ f.flight_status = some "active"
          ∨ f.flight_status = some "completed" ∨ f.flight_status = some "cancelled")
          = false := decide_eq_false h
      rw [hp, if_neg Bool.false_ne_true]
      have hind := statusIndicator_eq f
      rw [if_neg h] at hind
      omega

/-- C6: `statusDistribution` counts exact matches of `flightStatus`
against the four literals; a record with any other status feeds none of
the counters, so the four counters sum to at most the input length, with
equality exactly when every record carries a recognized status. -/
theorem claim6_statusDistribution (fs : List FlightRecord) (yy : Int) (mo : Nat)
    (r : Nat → ℚ) :
    (processFlightAnalytics fs yy mo r).statusDistribution
      = ⟨(fs.filter (fun f => decide (f.flight_status = some "scheduled"))).length,
         (fs.filter (fun f => decide (f.flight_status = some "active"))).length,
         (fs.filter (fun f => decide (f.flight_status = some "completed"))).length,
         (fs.filter (fun f => decide (f.flight_status = some "cancelled"))).length⟩
    ∧ (processFlightAnalytics fs yy mo r).statusDistribution.scheduled
        + (processFlightAnalytics fs yy mo r).statusDistribution.active
        + (processFlightAnalytics fs yy mo r).statusDistribution.completed
        + (processFlightAnalytics fs yy mo r).statusDistribution.cancelled
        ≤ fs.length
    ∧ ((processFlightAnalytics fs yy mo r).statusDistribution.scheduled
        + (processFlightAnalytics fs yy mo r).statusDistribution.active
        + (processFlightAnalytics fs yy mo r).statusDistribution.completed
        + (processFlightAnalytics fs yy mo r).statusDistribution.cancelled
        = fs.length
      ↔ ∀ f ∈ fs, f.flight_status = some "scheduled" ∨ f.flight_status = some "active"
          ∨ f.flight_status = some "completed" ∨ f.flight_status = some "cancelled") := by
  have hsd : (processFlightAnalytics fs yy mo r).statusDistribution
      = statusDistributionOf fs := by
    rcases eq_or_ne fs [] with rfl | hne
    · rfl
    · rw [processFlightAnalytics_ne_nil fs yy mo r hne]
  rw [hsd]
  refine ⟨rfl, ?_, ?_⟩
  · show countStatus "scheduled" fs + countStatus "active" fs + countStatus "completed" fs
        + countStatus "cancelled" fs ≤ fs.length
    rw [statusSum_eq_filter]
    exact List.length_filter_le _ fs
  · show countStatus "scheduled" fs + countStatus "active" fs + countStatus "completed" fs
        + countStatus "cancelled" fs = fs.length ↔ _
    rw [statusSum_eq_filter]
    constructor
    · intro hlen
      have heq := List.Sublist.eq_of_length (List.filter_sublist fs) hlen
      intro f hf
      have := (List.filter_eq_self.mp heq) f hf
      simpa using this
    · intro hall
      have heq : fs.filter (fun f => decide (f.flight_status = some "scheduled"
          ∨ f.flight_status = some "active" ∨ f.flight_status = some "completed"
          ∨ f.flight_status = some "cancelled")) = fs := by
        rw [List.filter_eq_self]
        intro f hf
        simpa using hall f hf
      rw [heq]

/-- C3: for every non-empty input, `routeAnalysis` is the first 5
entries of the stable descending sort of the per-route grouping keyed by
the departure/arrival string: the sort is a permutation of the grouped
entries, descending in frequency, and preserves the first-seen grouping
order within every frequency class (the insertion-order tie-break); each
retained entry's frequency counts exactly the records with its route key
and its average duration is that route's duration sum over its
frequency; the list length is `min 5 distinctRoutes`; and
`mostFrequentRoute` is the first entry's route key. -/
theorem claim3_routeAnalysis (fs : List FlightRecord) (yy : Int) (mo : Nat) (r : Nat → ℚ)
    (hne : fs ≠ []) :
    (processFlightAnalytics fs yy mo r).routeAnalysis = (routeSortedOf fs).take 5
    ∧ List.Perm (routeSortedOf fs) (routeEntriesOf fs)
    ∧ (∀ n : Nat, (routeSortedOf fs).filter (fun e => decide (e.frequency = n))
        = (routeEntriesOf fs).filter (fun e => decide (e.frequency = n)))
    ∧ (∀ e ∈ (processFlightAnalytics fs yy mo r).routeAnalysis,
        e.frequency = cntKey routeKey fs e.route
        ∧ e.avgDuration = sumKey routeKey fs e.route / (e.frequency : ℚ))
    ∧ (processFlightAnalytics fs yy mo r).routeAnalysis.length
        = min 5 (fs.map routeKey).dedup.length
    ∧ (processFlightAnalytics fs yy mo r).routeAnalysis.Pairwise
        (fun a b => b.frequency ≤ a.frequency)
    ∧ (processFlightAnalytics fs yy mo r).routeAnalysis.head?.map (fun e => e.route)
        = some (processFlightAnalytics fs yy mo r).mostFrequentRoute := by
  rw [processFlightAnalytics_ne_nil fs yy mo r hne]
  refine ⟨rfl, stableSortDesc_perm _ _, fun n => stableSortDesc_filter _ _ n, ?_, ?_, ?_,
    mostFrequentRouteOf_head fs hne⟩
  · intro e he
    have hmem : e ∈ routeEntriesOf fs := by
      rw [← mem_stableSortDesc (fun e => e.frequency) (routeEntriesOf fs) e]
      exact List.Sublist.subset (List.take_sublist 5 _) he
    obtain ⟨h1, _, h3, _⟩ := mem_routeEntriesOf fs e hmem
    exact ⟨h1, h3⟩
  · show ((routeSortedOf fs).take 5).length = _
    rw [List.length_take, routeSortedOf, stableSortDesc_length, routeEntriesOf_length]
  · exact List.Pairwise.sublist (List.take_sublist 5 _)
      (stableSortDesc_sorted (fun e => e.frequency) (routeEntriesOf fs))

/-- C3 witness: the route-analysis characterization applied to a
concrete two-flight input sharing one route. -/
theorem claim3_witness :
    ([(⟨none, none, some "JFK", some "LAX", some "AA", JSVal.num 5⟩ : FlightRecord),
      (⟨none, none, some "JFK", some "LAX", some "DL", JSVal.num 3⟩ : FlightRecord)]
        : List FlightRecord) ≠ []
    ∧ ((processFlightAnalytics
          [(⟨none, none, some "JFK", some "LAX", some "AA", JSVal.num 5⟩ : FlightRecord),
           (⟨none, none, some "JFK", some "LAX", some "DL", JSVal.num 3⟩ : FlightRecord)]
          2026 9 (fun _ => 0)).routeAnalysis
        = (routeSortedOf
            [(⟨none, none, some "JFK", some "LAX", some "AA", JSVal.num 5⟩ : FlightRecord),
             (⟨none, none, some "JFK", some "LAX", some "DL", JSVal.num 3⟩ : FlightRecord)]).take 5
      ∧ List.Perm (routeSortedOf
            [(⟨none, none, some "JFK", some "LAX", some "AA", JSVal.num 5⟩ : FlightRecord),
             (⟨none, none, some "JFK", some "LAX", some "DL", JSVal.num 3⟩ : FlightRecord)])
          (routeEntriesOf
            [(⟨none, none, some "JFK", some "LAX", some "AA", JSVal.num 5⟩ : FlightRecord),
             (⟨none, none, some "JFK", some "LAX", some "DL", JSVal.num 3⟩ : FlightRecord)])
      ∧ (∀ n : Nat, ((routeSortedOf
            [(⟨none, none, some "JFK", some "LAX", some "AA", JSVal.num 5⟩ : FlightRecord),
             (⟨none, none, some "JFK", some "LAX", some "DL", JSVal.num 3⟩ : FlightRecord)]).filter
              (fun e => decide (e.frequency = n)))
          = ((routeEntriesOf
            [(⟨none, none, some "JFK", some "LAX", some "AA", JSVal.num 5⟩ : FlightRecord),
             (⟨none, none, some "JFK", some "LAX", some "DL", JSVal.num 3⟩ : FlightRecord)]).filter
              (fun e => decide (e.frequency = n))))
      ∧ (∀ e ∈ (processFlightAnalytics
            [(⟨none, none, some "JFK", some "LAX", some "AA", JSVal.num 5⟩ : FlightRecord),
             (⟨none, none, some "JFK", some "LAX", some "DL", JSVal.num 3⟩ : FlightRecord)]
            2026 9 (fun _ => 0)).routeAnalysis,
          e.frequency = cntKey routeKey
            [(⟨none, none, some "JFK", some "LAX", some "AA", JSVal.num 5⟩ : FlightRecord),
             (⟨none, none, some "JFK", some "LAX", some "DL", JSVal.num 3⟩ : FlightRecord)]
            e.route
          ∧ e.avgDuration = sumKey routeKey
              [(⟨none, none, some "JFK", some "LAX", some "AA", JSVal.num 5⟩ : FlightRecord),
               (⟨none, none, some "JFK", some "LAX", some "DL", JSVal.num 3⟩ : FlightRecord)]
              e.route / (e.frequency : ℚ))
      ∧ (processFlightAnalytics
            [(⟨none, none, some "JFK", some "LAX", some "AA", JSVal.num 5⟩ : FlightRecord),
             (⟨none, none, some "JFK", some "LAX", some "DL", JSVal.num 3⟩ : FlightRecord)]
            2026 9 (fun _ => 0)).routeAnalysis.length
          = min 5 (([(⟨none, none, some "JFK", some "LAX", some "AA",
                JSVal.num 5⟩ : FlightRecord),
             (⟨none, none, some "JFK", some "LAX", some "DL",
                JSVal.num 3⟩ : FlightRecord)].map routeKey).dedup.length)
      ∧ (processFlightAnalytics
            [(⟨none, none, some "JFK", some "LAX", some "AA", JSVal.num 5⟩ : FlightRecord),
             (⟨none, none, some "JFK", some "LAX", some "DL", JSVal.num 3⟩ : FlightRecord)]
            2026 9 (fun _ => 0)).routeAnalysis.Pairwise
          (fun a b => b.frequency ≤ a.frequency)
      ∧ (processFlightAnalytics
            [(⟨none, none, some "JFK", some "LAX", some "AA", JSVal.num 5⟩ : FlightRecord),
             (⟨none, none, some "JFK", some "LAX", some "DL", JSVal.num 3⟩ : FlightRecord)]
            2026 9 (fun _ => 0)).routeAnalysis.head?.map (fun e => e.route)
          = some (processFlightAnalytics
            [(⟨none, none, some "JFK", some "LAX", some "AA", JSVal.num 5⟩ : FlightRecord),
             (⟨none, none, some "JFK", some "LAX", some "DL", JSVal.num 3⟩ : FlightRecord)]
            2026 9 (fun _ => 0)).mostFrequentRoute) :=
  ⟨List.cons_ne_nil _ _,
   claim3_routeAnalysis
     [(⟨none, none, some "JFK", some "LAX", some "AA", JSVal.num 5⟩ : FlightRecord),
      (⟨none, none, some "JFK", some "LAX", some "DL", JSVal.num 3⟩ : FlightRecord)]
     2026 9 (fun _ => 0) (List.cons_ne_nil _ _)⟩

/-! ## Carrier-grouping helpers -/

theorem withReliability_proj (rand : Nat → ℚ) (i : Nat) (l : List (String × Nat × ℚ)) :
    (withReliability rand i l).map (fun e => (e.airline, e.flights))
      = l.map (fun e => (e.1, e.2.1)) := by
  induction l generalizing i with
  | nil => rfl
  | cons e rest ih => simp only [withReliability, List.map_cons, ih]

theorem withReliability_length (rand : Nat → ℚ) (i : Nat) (l : List (String × Nat × ℚ)) :
    (withReliability rand i l).length = l.length := by
  induction l generalizing i with
  | nil => rfl
  | cons e rest ih => simp only [withReliability, List.length_cons, ih]

theorem mem_withReliability (rand : Nat → ℚ) (l : List (String × Nat × ℚ))
    (a : AirlineEntry) (i : Nat) (ha : a ∈ withReliability rand i l) :
    ∃ n, a.reliability = 85 + rand n * 15 := by
  induction l generalizing i with
  | nil => simp [withReliability] at ha
  | cons e rest ih =>
    rcases List.mem_cons.mp ha with rfl | ha2
    · exact ⟨i, rfl⟩
    · exact ih (i + 1) ha2

theorem aircraftBreakdownOf_proj (fs : List FlightRecord) :
    (aircraftBreakdownOf fs).map (fun e => (e.type, e.count))
      = (stableSortDesc Prod.snd
          ((groupCountSum airlineKey fs).map (fun e => (e.1, e.2.1)))).take 5 := by
  rw [aircraftBreakdownOf, aircraftSortedOf, List.map_take,
    stableSortDesc_map (fun e : AircraftEntry => e.count) Prod.snd
      (fun e : AircraftEntry => (e.type, e.count)) (fun a => rfl),
    aircraftEntriesOf, List.map_map]
  rfl

theorem airlineAnalysisOf_proj (fs : List FlightRecord) (rand : Nat → ℚ) :
    (airlineAnalysisOf fs rand).map (fun e => (e.airline, e.flights))
      = (stableSortDesc Prod.snd
          ((groupCountSum airlineKey fs).map (fun e => (e.1, e.2.1)))).take 5 := by
  rw [airlineAnalysisOf, airlineSortedOf, List.map_take,
    stableSortDesc_map (fun e : AirlineEntry => e.flights) Prod.snd
      (fun e : AirlineEntry => (e.airline, e.flights)) (fun a => rfl),
    withReliability_proj]

theorem aircraftEntriesOf_length (fs : List FlightRecord) :
    (aircraftEntriesOf fs).length = (fs.map airlineKey).dedup.length := by
  rw [aircraftEntriesOf, List.length_map, groupCountSum_length]

theorem aircraftSortedOf_ne_nil (fs : List FlightRecord) (hne : fs ≠ []) :
    aircraftSortedOf fs ≠ [] := by
  have hlen : (aircraftSortedOf fs).length = (fs.map airlineKey).dedup.length := by
    rw [aircraftSortedOf, stableSortDesc_length, aircraftEntriesOf_length]
  intro h
  rw [h] at hlen
  have hmap : fs.map airlineKey ≠ [] := by
    intro hm
    exact hne (List.map_eq_nil_iff.mp hm)
  have hd : (fs.map airlineKey).dedup ≠ [] := by
    intro hdd
    exact hmap ((List.dedup_eq_nil _).mp hdd)
  exact hd (List.eq_nil_of_length_eq_zero hlen.symm)

theorem mostUsedAircraftOf_head (fs : List FlightRecord) (hne : fs ≠ []) :
    (aircraftBreakdownOf fs).head?.map (fun e => e.type)
      = some (mostUsedAircraftOf fs) := by
  obtain ⟨e, t, het⟩ := List.exists_cons_of_ne_nil (aircraftSortedOf_ne_nil fs hne)
  have hhead : (aircraftBreakdownOf fs).head? = some e := by
    rw [aircraftBreakdownOf, head?_take_five _ (aircraftSortedOf_ne_nil fs hne), het]
    rfl
  have hmem : e ∈ aircraftEntriesOf fs := by
    rw [← mem_stableSortDesc (fun e => e.count) (aircraftEntriesOf fs) e]
    show e ∈ aircraftSortedOf fs
    rw [het]
    exact List.mem_cons_self e t
  obtain ⟨f0, hf0, hkey⟩ := List.mem_map.mp (mem_aircraftEntriesOf fs e hmem).2.2.2
  have htype : e.type ≠ "" := by
    rw [← hkey]
    exact airlineKey_ne_empty f0
  rw [hhead, mostUsedAircraftOf, hhead]
  simp [jsOrElse, htype]

/-- C5: for every non-empty input, a single grouping keyed by
`airlineIata` (default `"Unknown"`) feeds both `aircraftBreakdown` and
`airlineAnalysis`; each breakdown entry's count is the number of records
carrying its carrier key and its percentage equals count / totalFlights
* 100; both lists are stable descending top-5 cuts of that same
grouping, so they list the same carriers in the same order with matching
counts; and `mostUsedAircraft` is the first breakdown entry's key. -/
theorem claim5_carrierGrouping (fs : List FlightRecord) (yy : Int) (mo : Nat) (r : Nat → ℚ)
    (hne : fs ≠ []) :
    (processFlightAnalytics fs yy mo r).aircraftBreakdown = (aircraftSortedOf fs).take 5
    ∧ (∀ e ∈ (processFlightAnalytics fs yy mo r).aircraftBreakdown,
        e.count = cntKey airlineKey fs e.type
        ∧ e.percentage = (e.count : ℚ)
            / ((processFlightAnalytics fs yy mo r).totalFlights : ℚ) * 100)
    ∧ (processFlightAnalytics fs yy mo r).aircraftBreakdown.map (fun e => (e.type, e.count))
        = (processFlightAnalytics fs yy mo r).airlineAnalysis.map
            (fun e => (e.airline, e.flights))
    ∧ (processFlightAnalytics fs yy mo r).aircraftBreakdown.Pairwise
        (fun a b => b.count ≤ a.count)
    ∧ (processFlightAnalytics fs yy mo r).airlineAnalysis.Pairwise
        (fun a b => b.flights ≤ a.flights)
    ∧ (∀ n : Nat, (aircraftSortedOf fs).filter (fun e => decide (e.count = n))
        = (aircraftEntriesOf fs).filter (fun e => decide (e.count = n)))
    ∧ (processFlightAnalytics fs yy mo r).aircraftBreakdown.length
        = min 5 (fs.map airlineKey).dedup.length
    ∧ (processFlightAnalytics fs yy mo r).airlineAnalysis.length
        = (processFlightAnalytics fs yy mo r).aircraftBreakdown.length
    ∧ (processFlightAnalytics fs yy mo r).aircraftBreakdown.head?.map (fun e => e.type)
        = some (processFlightAnalytics fs yy mo r).mostUsedAircraft := by
  rw [processFlightAnalytics_ne_nil fs yy mo r hne]
  refine ⟨rfl, ?_, ?_, ?_, ?_, fun n => stableSortDesc_filter _ _ n, ?_, ?_,
    mostUsedAircraftOf_head fs hne⟩
  · intro e he
    have hmem : e ∈ aircraftEntriesOf fs := by
      rw [← mem_stableSortDesc (fun e => e.count) (aircraftEntriesOf fs) e]
      exact List.Sublist.subset (List.take_sublist 5 _) he
    obtain ⟨h1, _, h3, _⟩ := mem_aircraftEntriesOf fs e hmem
    refine ⟨h1, ?_⟩
    rw [h3, if_pos (List.length_pos.mpr hne)]
  · show (aircraftBreakdownOf fs).map _ = (airlineAnalysisOf fs r).map _
    rw [aircraftBreakdownOf_proj, airlineAnalysisOf_proj]
  · exact List.Pairwise.sublist (List.take_sublist 5 _)
      (stableSortDesc_sorted (fun e => e.count) (aircraftEntriesOf fs))
  · exact List.Pairwise.sublist (List.take_sublist 5 _)
      (stableSortDesc_sorted (fun e => e.flights)
        (withReliability r 0 (groupCountSum airlineKey fs)))
  · show ((aircraftSortedOf fs).take 5).length = _
    rw [List.length_take, aircraftSortedOf, stableSortDesc_length, aircraftEntriesOf_length]
  · show (airlineAnalysisOf fs r).length = (aircraftBreakdownOf fs).length
    rw [airlineAnalysisOf, aircraftBreakdownOf, List.length_take, List.length_take,
      airlineSortedOf, aircraftSortedOf, stableSortDesc_length, stableSortDesc_length,
      withReliability_length, aircraftEntriesOf, List.length_map]

/-- C5 witness: the carrier-grouping characterization instantiated at a
concrete two-flight input with two distinct carriers. -/
theorem claim5_witness :
    ([(⟨none, none, none, none, some "AA", JSVal.num 5⟩ : FlightRecord),
      (⟨none, none, none, none, some "AA", JSVal.num 3⟩ : FlightRecord)]
        : List FlightRecord) ≠ []
    ∧ ((processFlightAnalytics
          [(⟨none, none, none, none, some "AA", JSVal.num 5⟩ : FlightRecord),
           (⟨none, none, none, none, some "AA", JSVal.num 3⟩ : FlightRecord)]
          2026 9 (fun _ => 0)).aircraftBreakdown
        = (aircraftSortedOf
            [(⟨none, none, none, none, some "AA", JSVal.num 5⟩ : FlightRecord),
             (⟨none, none, none, none, some "AA", JSVal.num 3⟩ : FlightRecord)]).take 5
      ∧ (∀ e ∈ (processFlightAnalytics
            [(⟨none, none, none, none, some "AA", JSVal.num 5⟩ : FlightRecord),
             (⟨none, none, none, none, some "AA", JSVal.num 3⟩ : FlightRecord)]
            2026 9 (fun _ => 0)).aircraftBreakdown,
          e.count = cntKey airlineKey
              [(⟨none, none, none, none, some "AA", JSVal.num 5⟩ : FlightRecord),
               (⟨none, none, none, none, some "AA", JSVal.num 3⟩ : FlightRecord)] e.type
          ∧ e.percentage = (e.count : ℚ)
              / (((processFlightAnalytics
                  [(⟨none, none, none, none, some "AA", JSVal.num 5⟩ : FlightRecord),
                   (⟨none, none, none, none, some "AA", JSVal.num 3⟩ : FlightRecord)]
                  2026 9 (fun _ => 0)).totalFlights : Nat) : ℚ) * 100)
      ∧ (processFlightAnalytics
            [(⟨none, none, none, none, some "AA", JSVal.num 5⟩ : FlightRecord),
             (⟨none, none, none, none, some "AA", JSVal.num 3⟩ : FlightRecord)]
            2026 9 (fun _ => 0)).aircraftBreakdown.map (fun e => (e.type, e.count))
          = (processFlightAnalytics
              [(⟨none, none, none, none, some "AA", JSVal.num 5⟩ : FlightRecord),
               (⟨none, none, none, none, some "AA", JSVal.num 3⟩ : FlightRecord)]
              2026 9 (fun _ => 0)).airlineAnalysis.map (fun e => (e.airline, e.flights))
      ∧ (processFlightAnalytics
            [(⟨none, none, none, none, some "AA", JSVal.num 5⟩ : FlightRecord),
             (⟨none, none, none, none, some "AA", JSVal.num 3⟩ : FlightRecord)]
            2026 9 (fun _ => 0)).aircraftBreakdown.Pairwise (fun a b => b.count ≤ a.count)
      ∧ (processFlightAnalytics
            [(⟨none, none, none, none, some "AA", JSVal.num 5⟩ : FlightRecord),
             (⟨none, none, none, none, some "AA", JSVal.num 3⟩ : FlightRecord)]
            2026 9 (fun _ => 0)).airlineAnalysis.Pairwise (fun a b => b.flights ≤ a.flights)
      ∧ (∀ n : Nat, ((aircraftSortedOf
            [(⟨none, none, none, none, some "AA", JSVal.num 5⟩ : FlightRecord),
             (⟨none, none, none, none, some "AA", JSVal.num 3⟩ : FlightRecord)]).filter
              (fun e => decide (e.count = n)))
          = ((aircraftEntriesOf
            [(⟨none, none, none, none, some "AA", JSVal.num 5⟩ : FlightRecord),
             (⟨none, none, none, none, some "AA", JSVal.num 3⟩ : FlightRecord)]).filter
              (fun e => decide (e.count = n))))
      ∧ (processFlightAnalytics
            [(⟨none, none, none, none, some "AA", JSVal.num 5⟩ : FlightRecord),
             (⟨none, none, none, none, some "AA", JSVal.num 3⟩ : FlightRecord)]
            2026 9 (fun _ => 0)).aircraftBreakdown.length
          = min 5 (([(⟨none, none, none, none, some "AA", JSVal.num 5⟩ : FlightRecord),
             (⟨none, none, none, none, some "AA",
                JSVal.num 3⟩ : FlightRecord)].map airlineKey).dedup.length)
      ∧ (processFlightAnalytics
            [(⟨none, none, none, none, some "AA", JSVal.num 5⟩ : FlightRecord),
             (⟨none, none, none, none, some "AA", JSVal.num 3⟩ : FlightRecord)]
            2026 9 (fun _ => 0)).airlineAnalysis.length
          = (processFlightAnalytics
              [(⟨none, none, none, none, some "AA", JSVal.num 5⟩ : FlightRecord),
               (⟨none, none, none, none, some "AA", JSVal.num 3⟩ : FlightRecord)]
              2026 9 (fun _ => 0)).aircraftBreakdown.length
      ∧ (processFlightAnalytics
            [(⟨none, none, none, none, some "AA", JSVal.num 5⟩ : FlightRecord),
             (⟨none, none, none, none, some "AA", JSVal.num 3⟩ : FlightRecord)]
            2026 9 (fun _ => 0)).aircraftBreakdown.head?.map (fun e => e.type)
          = some (processFlightAnalytics
              [(⟨none, none, none, none, some "AA", JSVal.num 5⟩ : FlightRecord),
               (⟨none, none, none, none, some "AA", JSVal.num 3⟩ : FlightRecord)]
              2026 9 (fun _ => 0)).mostUsedAircraft) :=
  ⟨List.cons_ne_nil _ _,
   claim5_carrierGrouping
     [(⟨none, none, none, none, some "AA", JSVal.num 5⟩ : FlightRecord),
      (⟨none, none, none, none, some "AA", JSVal.num 3⟩ : FlightRecord)]
     2026 9 (fun _ => 0) (List.cons_ne_nil _ _)⟩

/-- C8: with the same input and the same current date, two calls differ
at most in `airlineAnalysis`: every other field of the two summaries is
identical, and even the `airlineAnalysis` entries agree on carrier and
flight count position by position; each entry's reliability is
`85 + draw * 15` for some `Math.random()` draw, hence lies in the
half-open interval [85, 100) whenever every draw lies in [0, 1). -/
theorem claim8_randomReliability (fs : List FlightRecord) (yy : Int) (mo : Nat)
    (r1 r2 : Nat → ℚ) (hb : ∀ n, 0 ≤ r1 n ∧ r1 n < 1) :
    processFlightAnalytics fs yy mo r1
      = { processFlightAnalytics fs yy mo r2 with
          airlineAnalysis := (processFlightAnalytics fs yy mo r1).airlineAnalysis }
    ∧ (processFlightAnalytics fs yy mo r1).airlineAnalysis.map
        (fun e => (e.airline, e.flights))
      = (processFlightAnalytics fs yy mo r2).airlineAnalysis.map
          (fun e => (e.airline, e.flights))
    ∧ ∀ e ∈ (processFlightAnalytics fs yy mo r1).airlineAnalysis,
        85 ≤ e.reliability ∧ e.reliability < 100 := by
  refine ⟨?_, ?_, ?_⟩
  · rcases eq_or_ne fs [] with rfl | hne
    · rfl
    · rw [processFlightAnalytics_ne_nil fs yy mo r1 hne,
        processFlightAnalytics_ne_nil fs yy mo r2 hne]
  · rcases eq_or_ne fs [] with rfl | hne
    · rfl
    · rw [processFlightAnalytics_ne_nil fs yy mo r1 hne,
        processFlightAnalytics_ne_nil fs yy mo r2 hne]
      show (airlineAnalysisOf fs r1).map _ = (airlineAnalysisOf fs r2).map _
      rw [airlineAnalysisOf_proj, airlineAnalysisOf_proj]
  · intro e he
    have hmem : ∃ n, e.reliability = 85 + r1 n * 15 := by
      rcases eq_or_ne fs [] with rfl | hne
      · simp [processFlightAnalytics] at he
      · rw [processFlightAnalytics_ne_nil fs yy mo r1 hne] at he
        have h2 : e ∈ withReliability r1 0 (groupCountSum airlineKey fs) := by
          rw [← mem_stableSortDesc (fun e => e.flights)
            (withReliability r1 0 (groupCountSum airlineKey fs)) e]
          exact List.Sublist.subset (List.take_sublist 5 _) he
        exact mem_withReliability r1 _ e 0 h2
    obtain ⟨n, hrel⟩ := hmem
    rw [hrel]
    have h0 := (hb n).1
    have h1 := (hb n).2
    constructor
    · nlinarith
    · nlinarith

/-- C8 witness: the randomness contract applied at a concrete input
with two different draw streams, one constantly one half and one
constantly one third. -/
theorem claim8_witness :
    (∀ n : Nat, 0 ≤ ((fun _ => 1/2 : Nat → ℚ) n) ∧ ((fun _ => 1/2 : Nat → ℚ) n) < 1)
    ∧ (processFlightAnalytics
          [(⟨none, none, none, none, some "AA", JSVal.num 1⟩ : FlightRecord)]
          2026 9 (fun _ => 1/2)
        = { processFlightAnalytics
              [(⟨none, none, none, none, some "AA", JSVal.num 1⟩ : FlightRecord)]
              2026 9 (fun _ => 1/3) with
            airlineAnalysis := (processFlightAnalytics
              [(⟨none, none, none, none, some "AA", JSVal.num 1⟩ : FlightRecord)]
              2026 9 (fun _ => 1/2)).airlineAnalysis }
      ∧ (processFlightAnalytics
          [(⟨none, none, none, none, some "AA", JSVal.num 1⟩ : FlightRecord)]
          2026 9 (fun _ => 1/2)).airlineAnalysis.map (fun e => (e.airline, e.flights))
        = (processFlightAnalytics
            [(⟨none, none, none, none, some "AA", JSVal.num 1⟩ : FlightRecord)]
            2026 9 (fun _ => 1/3)).airlineAnalysis.map (fun e => (e.airline, e.flights))
      ∧ ∀ e ∈ (processFlightAnalytics
          [(⟨none, none, none, none, some "AA", JSVal.num 1⟩ : FlightRecord)]
          2026 9 (fun _ => 1/2)).airlineAnalysis,
          85 ≤ e.reliability ∧ e.reliability < 100) :=
  ⟨fun n => by norm_num,
   claim8_randomReliability
     [(⟨none, none, none, none, some "AA", JSVal.num 1⟩ : FlightRecord)]
     2026 9 (fun _ => 1/2) (fun _ => 1/3) (fun n => by norm_num)⟩

/-! ## Numeric-prefix parsing lemmas -/

theorem takeDigits_none (l : List Char) (h : ∀ c, l.head? = some c → c.isDigit = false) :
    takeDigits l = ([], l) := by
  cases l with
  | nil => rfl
  | cons c cs =>
    have hc := h c rfl
    simp [takeDigits, hc]

theorem parseExponent_none (l : List Char) (h : ∀ c, l.head? = some c → c ≠ 'e' ∧ c ≠ 'E') :
    parseExponent l = 0 := by
  cases l with
  | nil => rfl
  | cons c rest =>
    have hc := h c rfl
    have hor : ¬(c = 'e' ∨ c = 'E') := by
      rintro (rfl | rfl)
      · exact hc.1 rfl
      · exact hc.2 rfl
    simp [parseExponent, hor]

theorem parseSignificand_three_five (l : List Char)
    (h : ∀ c, l.head? = some c → c.isDigit = false) :
    parseSignificand ('3' :: '.' :: '5' :: l) = some (7/2, l) := by
  have htd : takeDigits l = ([], l) := takeDigits_none l h
  have h1 : takeDigits ('3' :: '.' :: '5' :: l) = ([3], '.' :: '5' :: l) := by
    simp [takeDigits, digitVal]
  have h2 : takeDigits ('5' :: l) = ([5], l) := by
    simp [takeDigits, digitVal, htd]
  simp only [parseSignificand, h1, h2]
  norm_num [digitsToNat]

/-- C10: duration coercion uses numeric-prefix parsing for strings: a
string consisting of the numeral 3.5 followed by any suffix that cannot
extend the numeral (its first character is neither a digit nor an
exponent marker) coerces to 3.5 rather than 0, while a string with no
parseable numeric prefix, such as "abc", coerces to 0. -/
theorem claim10_prefixCoercion (j : String)
    (h : ∀ c, j.data.head? = some c → c.isDigit = false ∧ c ≠ 'e' ∧ c ≠ 'E') :
    safeParseFloat (JSVal.str ("3.5" ++ j)) = 7/2
    ∧ safeParseFloat (JSVal.str "abc") = 0 := by
  constructor
  · have hdata : ("3.5" ++ j).data.dropWhile (fun c => c.isWhitespace)
        = '3' :: '.' :: '5' :: j.data := by
      rw [String.data_append]
      rfl
    have hpf : parseFloatQ ("3.5" ++ j) = some (7/2) := by
      simp only [parseFloatQ, hdata]
      rw [parseSignificand_three_five j.data (fun c hc => (h c hc).1),
        if_neg (show ¬('3' : Char) = '-' by decide),
        if_neg (show ¬('3' : Char) = '+' by decide)]
      simp [parseExponent_none j.data (fun c hc => (h c hc).2), pow10]
    simp [safeParseFloat, hpf]
  · have habc : parseFloatQ "abc" = none := rfl
    simp [safeParseFloat, habc]

/-- C10 witness: the prefix-coercion property applied at the suffix
"abc". -/
theorem claim10_witness :
    (∀ c, ("abc" : String).data.head? = some c → c.isDigit = false ∧ c ≠ 'e' ∧ c ≠ 'E')
    ∧ (safeParseFloat (JSVal.str ("3.5" ++ "abc")) = 7/2
       ∧ safeParseFloat (JSVal.str "abc") = 0) := by
  have hh : ∀ c, ("abc" : String).data.head? = some c
      → c.isDigit = false ∧ c ≠ 'e' ∧ c ≠ 'E' := by
    intro c hc
    have hac : 'a' = c := Option.some.inj hc
    cases hac
    decide
  exact ⟨hh, claim10_prefixCoercion "abc" hh⟩

end ELBS
